import Mathlib

set_option maxRecDepth 4000

/-!
Verification of the CFU-Playground hps_accel convolution offload engine
(`conv_accel_gen_1.cc`) and its test harness (`conv2d_call.cc`).

Tensors are modelled as flat `List Int` buffers indexed by the same offset
arithmetic the C code uses; machine integers are modelled as unbounded `Int`
(the accumulation and post-processing arithmetic is identical on both the
engine side and the reference side, so no overflow wrapping is needed to
compare them).  The accelerator hardware (`blocks.h` / gateware) is not part
of the sources, so its protocol semantics are modelled from the spec, §6.
-/

/-- Total list read: returns 0 out of bounds (model of a byte/word read with a
defined default; all reads relevant to the theorems are in bounds). -/
def tget : List Int → Nat → Int
  | [], _ => 0
  | v :: _, 0 => v
  | _ :: l, n + 1 => tget l n

/-- Total list write: out-of-bounds writes are dropped (same as `List.set`). -/
def tset : List Int → Nat → Int → List Int
  | [], _, _ => []
  | _ :: l, 0, v => v :: l
  | x :: l, n + 1, v => x :: tset l n v

/-- A contiguous sliceL of `n` elements of `l` starting at `b`, read with
`tget` (so a sliceL reaching past the end of `l` is padded with zeros). -/
def sliceL (l : List Int) (b : Nat) : Nat → List Int
  | 0 => []
  | n + 1 => tget l b :: sliceL l (b + 1) n

/-- Write the elements of `vs` at consecutive positions of `buf` from `i`. -/
def writeList (buf : List Int) (i : Nat) : List Int → List Int
  | [] => buf
  | v :: vs => writeList (tset buf i v) (i + 1) vs

/-- Sum of `f 0 + f 1 + ... + f (n-1)` over the integers. -/
def isum (n : Nat) (f : Nat → Int) : Int := ((List.range n).map f).sum

/-- Padding modes of `tflite::PaddingType`. -/
inductive PaddingType
  | kNone
  | kSame
  | kValid
deriving DecidableEq

/-- A 4-dimensional `tflite::RuntimeShape` (batch, height, width, depth);
every shape handled by the engine is checked to be 4-dimensional. -/
structure RuntimeShape where
  d0 : Nat
  d1 : Nat
  d2 : Nat
  d3 : Nat
deriving DecidableEq

/-- `RuntimeShape::Dims(i)`. -/
def RuntimeShape.Dims (s : RuntimeShape) : Nat → Nat
  | 0 => s.d0
  | 1 => s.d1
  | 2 => s.d2
  | _ => s.d3

/-- `RuntimeShape::FlatSize()` of a 4-dimensional shape. -/
def RuntimeShape.FlatSize (s : RuntimeShape) : Nat := s.d0 * s.d1 * s.d2 * s.d3

/-- `tflite::Offset(shape, i0, i1, i2, i3)`: row-major flat index. -/
def Offset (s : RuntimeShape) (i0 i1 i2 i3 : Nat) : Nat :=
  ((i0 * s.d1 + i1) * s.d2 + i2) * s.d3 + i3

/-- `tflite::MatchingDim(shape1, index1, shape2, index2)`: returns
`shape1.Dims(index1)` (the release build only debug-checks that the two
dimensions agree). -/
def MatchingDim (s1 : RuntimeShape) (i1 : Nat) (_s2 : RuntimeShape) (_i2 : Nat) : Nat :=
  s1.Dims i1

/-- The fields of `tflite::ConvParams` read by the offload engine and the
eligibility classifier.  `input_offset` is the quantization offset added to
each raw input value (the comment in the source is `r = s(q - Z)`, so
`input_offset` carries `-Z`). -/
structure ConvParams where
  padding_type : PaddingType
  padding_width : Nat
  padding_height : Nat
  stride_width : Nat
  stride_height : Nat
  dilation_width_factor : Nat
  dilation_height_factor : Nat
  input_offset : Int
  output_offset : Int
  quantized_activation_min : Int
  quantized_activation_max : Int
deriving DecidableEq

/-- `CanAccelerateConv4x4` from `conv_accel_gen_1.cc`, lines 32-48.  The bias
tensor pointer is modelled as an `Option`: `none` is a null pointer. -/
def CanAccelerateConv4x4 (params : ConvParams) (input_shape filter_shape output_shape : RuntimeShape)
    (bias_data : Option (List Int)) : Bool :=
  let input_depth := MatchingDim input_shape 3 filter_shape 3
  let filter_height := filter_shape.Dims 1
  let filter_width := filter_shape.Dims 2
  let dilation_width_factor := params.dilation_width_factor
  let dilation_height_factor := params.dilation_height_factor
  let batches := MatchingDim input_shape 0 output_shape 0
  params.padding_type == PaddingType.kValid &&
    (input_depth == 1 || input_depth % 4 == 0) && filter_width == 4 &&
    filter_height == 4 && dilation_width_factor == 1 &&
    dilation_height_factor == 1 && batches == 1 && bias_data.isSome

/-- Protocol calls of the accelerator interface (spec §6), recorded as a ghost
trace by the accelerator model; `advance` is one stream-advance step. -/
inductive AccelEvent
  | loadInputOffset
  | setOutputOffsets
  | loadFilter
  | loadOutputParams
  | loadInput
  | advance
  | macc
  | post
  | getWord
deriving DecidableEq

/-- Modelled from the spec: the state of the streaming accelerator behind the
protocol of §6 (`blocks.h` / the gateware are not part of the sources).
`filterVals` holds the scalar filter weights of the currently loaded output
channel tile and `inputWindow` the 4x4xdepth input window, each with a
streaming cursor counted in scalar values; `acc` is the running 32-bit
accumulator; `outParams` holds the (bias, multiplier, shift) triples of the
loaded tile; `outQueue` is the FIFO of post-processed 8-bit results. -/
structure AccelState where
  inputOffset : Int := 0
  outputOffset : Int := 0
  actMin : Int := 0
  actMax : Int := 0
  filterVals : List Int := []
  filterCursor : Nat := 0
  inputWindow : List Int := []
  inputCursor : Nat := 0
  acc : Int := 0
  outParams : List (Int × Int × Int) := []
  opIndex : Nat := 0
  outQueue : List Int := []
  trace : List AccelEvent := []

/-- The accelerator's data state (everything except the ghost trace). -/
structure AccelCore where
  inputOffset : Int
  outputOffset : Int
  actMin : Int
  actMax : Int
  filterVals : List Int
  filterCursor : Nat
  inputWindow : List Int
  inputCursor : Nat
  acc : Int
  outParams : List (Int × Int × Int)
  opIndex : Nat
  outQueue : List Int

/-- Projection of an accelerator state onto its data fields. -/
def AccelState.core (s : AccelState) : AccelCore :=
  ⟨s.inputOffset, s.outputOffset, s.actMin, s.actMax, s.filterVals, s.filterCursor,
    s.inputWindow, s.inputCursor, s.acc, s.outParams, s.opIndex, s.outQueue⟩

/-- The reset accelerator state. -/
def initAccelState : AccelState := {}

/-- Modelled from the spec: `LoadInputOffset(offset)` (spec §6). -/
def LoadInputOffset (off : Int) (s : AccelState) : AccelState :=
  { s with inputOffset := off, trace := s.trace ++ [AccelEvent.loadInputOffset] }

/-- Modelled from the spec: `SetOutputOffsets(output_offset, activation_min,
activation_max)` (spec §6). -/
def SetOutputOffsets (off mn mx : Int) (s : AccelState) : AccelState :=
  { s with outputOffset := off, actMin := mn, actMax := mx,
           trace := s.trace ++ [AccelEvent.setOutputOffsets] }

/-- Modelled from the spec: `LoadFilter(input_depth, output_channel_count,
filter_weights)` (spec §6) loads the filter weights of one output-channel tile
(`output_channel_count * 4 * 4 * input_depth` scalar weights starting at the
given flat position of the filter tensor) and rewinds the filter stream. -/
def LoadFilter (input_depth output_channels : Nat) (filter : List Int) (base : Nat)
    (s : AccelState) : AccelState :=
  { s with filterVals := sliceL filter base (output_channels * (4 * (4 * input_depth))),
           filterCursor := 0, trace := s.trace ++ [AccelEvent.loadFilter] }

/-- Modelled from the spec: `LoadOutputParams(channel_offset, channel_count,
bias, multiplier, shift)` (spec §6) loads the per-channel post-processing
parameters of the tile, positioned by the tile's channel offset, and rewinds
the post-processing position. -/
def LoadOutputParams (ch_offset ch_count : Nat) (bias mult shift : List Int)
    (s : AccelState) : AccelState :=
  { s with outParams := (List.range ch_count).map
             (fun j => (tget bias (ch_offset + j), tget mult (ch_offset + j),
                        tget shift (ch_offset + j))),
           opIndex := 0, trace := s.trace ++ [AccelEvent.loadOutputParams] }

/-- Modelled from the spec: `LoadInput(input_row_stride, input_depth,
window_origin)` (spec §6) gathers the 4-row, 4-column, `input_depth`-deep
input window (row stride `input_width * input_depth` scalar values) into the
accelerator's input memory and rewinds the input stream. -/
def LoadInput (input_width input_depth : Nat) (input : List Int) (base : Nat)
    (s : AccelState) : AccelState :=
  { s with inputWindow := (List.range 4).flatMap
             (fun fy => sliceL input (base + fy * (input_width * input_depth))
               (4 * input_depth)),
           inputCursor := 0, trace := s.trace ++ [AccelEvent.loadInput] }

/-- Modelled from the spec: one stream-advance step consumes the next 16
filter values and 16 input-window values in lockstep (the accelerator's
`Vector16` granularity), adding their offset-adjusted dot product to the
accumulator; both streams are circular over the loaded data. -/
def advanceStep (s : AccelState) : AccelState :=
  let d := isum 16 fun k =>
    (tget s.inputWindow ((s.inputCursor + k) % s.inputWindow.length) + s.inputOffset) *
      tget s.filterVals ((s.filterCursor + k) % s.filterVals.length)
  { s with acc := s.acc + d,
           inputCursor := s.inputCursor + 16,
           filterCursor := s.filterCursor + 16,
           trace := s.trace ++ [AccelEvent.advance] }

/-- Modelled from the spec: `AdvanceFilterInput(iterations)` (spec §6) advances
both streaming cursors by `iterations` steps. -/
def AdvanceFilterInput : Nat → AccelState → AccelState
  | 0, s => s
  | n + 1, s => AdvanceFilterInput n (advanceStep s)

/-- Modelled from the spec: `multiply_accumulate()` consumes the current
stream position and returns the raw 32-bit accumulator (spec §6), which is
then reset for the next output channel. -/
def multiply_accumulate (s : AccelState) : Int × AccelState :=
  (s.acc, { s with acc := 0, trace := s.trace ++ [AccelEvent.macc] })

/-- The post-processed 8-bit value for (bias, multiplier, shift) triple `p`
and raw accumulator `a` (the computation of `PostProcess`). -/
def postVal (rescale : Int → Int → Int → Int) (outOff mn mx : Int)
    (p : Int × Int × Int) (a : Int) : Int :=
  min mx (max mn (rescale (a + p.1) p.2.1 p.2.2 + outOff))

/-- Modelled from the spec: `PostProcess(raw_accumulator)` (spec §6) adds the
current channel's bias, rescales through the per-channel (multiplier, shift)
pair — the rescaling formula itself is external to this repository and is
abstracted as the `rescale` parameter, shared verbatim with the reference
kernel per the spec's bit-identical post-processing requirement — adds the
output offset, clamps to the activation range, and pushes one result into the
output queue; consecutive calls walk the loaded tile's channels cyclically. -/
def PostProcess (rescale : Int → Int → Int → Int) (a : Int) (s : AccelState) : AccelState :=
  { s with outQueue := s.outQueue ++
             [postVal rescale s.outputOffset s.actMin s.actMax
               (s.outParams.getD (s.opIndex % s.outParams.length) (0, 0, 0)) a],
           opIndex := s.opIndex + 1,
           trace := s.trace ++ [AccelEvent.post] }

/-- Modelled from the spec: `GetOutputWord()` (spec §6) pops one packed
4-channel result word from the output queue (one 8-bit value per channel, in
push order); popping from a queue holding fewer than 4 results yields the
model default 0 for the missing lanes. -/
def GetOutputWord (s : AccelState) : (Int × Int × Int × Int) × AccelState :=
  ((tget s.outQueue 0, tget s.outQueue 1, tget s.outQueue 2, tget s.outQueue 3),
    { s with outQueue := s.outQueue.drop 4, trace := s.trace ++ [AccelEvent.getWord] })

/-- `filter_words_per_output_channel` (`conv_accel_gen_1.cc`, lines 106-107):
number of accelerator storage words taken by one output channel's 4x4 filter
(4 scalar weights per word). -/
def filterWordsPerOutputChannel (input_depth : Nat) : Nat := input_depth * 4 * 4 / 4

/-- `max_output_channels_per_load` (`conv_accel_gen_1.cc`, lines 108-109):
largest output-channel tile whose filter weights fit in `MAX_FILTER_WORDS`
words of accelerator filter memory, rounded down to a multiple of 4.
`MAX_FILTER_WORDS` comes from the generated `gateware_constants.h`, which is
not part of the sources, so it is kept as the parameter `maxFilterWords`. -/
def maxOutputChannelsPerLoad (maxFilterWords input_depth : Nat) : Nat :=
  maxFilterWords / filterWordsPerOutputChannel input_depth / 4 * 4

/-- The per-output-channel loop (`conv_accel_gen_1.cc`, lines 140-147),
counting down the channels of the current tile: each channel advances the
filter/input streams `iterations` steps, triggers one multiply-accumulate and
post-processes the one raw accumulator it returns. -/
def processChannels (rescale : Int → Int → Int → Int) (iterations : Nat) :
    Nat → AccelState → AccelState
  | 0, s => s
  | n + 1, s =>
    let s1 := AdvanceFilterInput iterations s
    let (a, s2) := multiply_accumulate s1
    processChannels rescale iterations n (PostProcess rescale a s2)

/-- One packed result word written to the output buffer a byte at a time
(the store `*(output_data32++) = GetOutputWord()` on a little-endian target:
lane 0 of the word is the lowest byte). -/
def storeWord (buf : List Int) (base : Nat) (w : Int × Int × Int × Int) : List Int :=
  tset (tset (tset (tset buf base w.1) (base + 1) w.2.1) (base + 2) w.2.2.1) (base + 3) w.2.2.2

/-- The result-draining loop (`conv_accel_gen_1.cc`, lines 151-154): pops one
word per iteration of `for (i = 0; i < output_channels; i += 4)` — that is
`(output_channels + 3) / 4` iterations — storing words at consecutive word
positions from `base` (a byte index). -/
def drainLoop : Nat → AccelState → List Int → Nat → AccelState × List Int
  | 0, s, buf, _ => (s, buf)
  | w + 1, s, buf, base =>
    let (word, s2) := GetOutputWord s
    drainLoop w s2 (storeWord buf base word) (base + 4)

/-- The fixed inputs of one `ConvPerChannel4x4` call, as read by its loops. -/
structure ConvCtx where
  rescale : Int → Int → Int → Int
  input_shape : RuntimeShape
  input_data : List Int
  filter_shape : RuntimeShape
  filter_data : List Int
  bias_data : List Int
  output_multiplier : List Int
  output_shift : List Int
  output_shape : RuntimeShape
  stride_width : Nat
  stride_height : Nat
  input_depth : Nat
  output_depth : Nat
  max_load : Nat

/-- The body of the `out_x` loop (`conv_accel_gen_1.cc`, lines 128-156) for one
output pixel: compute the input window origin, load the window, run all output
channels of the current tile, drain the packed result words to the output
buffer at the running byte position `base`, and advance `base` by
`output_depth / 4` words. -/
def tilePixel (ctx : ConvCtx) (nc out_y out_x : Nat) :
    AccelState × List Int × Nat → AccelState × List Int × Nat
  | (s, buf, base) =>
    let in_y_origin := out_y * ctx.stride_height
    let in_x_origin := out_x * ctx.stride_width
    let s1 := LoadInput (ctx.input_shape.Dims 2) ctx.input_depth ctx.input_data
                (Offset ctx.input_shape 0 in_y_origin in_x_origin 0) s
    let iterations := 4 * 4 * ctx.input_depth / 16
    let s2 := processChannels ctx.rescale iterations nc s1
    let r := drainLoop ((nc + 3) / 4) s2 buf base
    (r.1, r.2, base + ctx.output_depth / 4 * 4)

/-- One iteration of the outer tiling loop (`conv_accel_gen_1.cc`, lines
115-158): load the tile's filter weights and output parameters, then walk all
output pixels in raster order. -/
def processTile (ctx : ConvCtx) (off nc : Nat) (s : AccelState) (buf : List Int) :
    AccelState × List Int :=
  let s1 := LoadFilter ctx.input_depth nc ctx.filter_data
              (Offset ctx.filter_shape off 0 0 0) s
  let s2 := LoadOutputParams off nc ctx.bias_data ctx.output_multiplier ctx.output_shift s1
  let r := (List.range (ctx.output_shape.Dims 1)).foldl (fun a out_y =>
      (List.range (ctx.output_shape.Dims 2)).foldl (fun b out_x =>
        tilePixel ctx nc out_y out_x b) a)
    (s2, buf, Offset ctx.output_shape 0 0 0 off)
  (r.1, r.2.1)

/-- The outer tiling loop (`conv_accel_gen_1.cc`, lines 111-114): the
output-channel offset runs from 0 in steps of `max_load` while it is below
`output_depth`, each tile covering `min (output_depth - off) max_load`
channels.  The C loop has no termination guard, so the recursion is metered by
`fuel`; `none` means the loop is still running when the fuel is exhausted (in
particular, with `max_load = 0` the offset never advances and the result is
`none` for every fuel). -/
def convOuterLoop (ctx : ConvCtx) : Nat → Nat → AccelState → List Int → Option (List Int)
  | 0, off, _, buf => if off < ctx.output_depth then none else some buf
  | fuel + 1, off, s, buf =>
    if off < ctx.output_depth then
      let nc := min (ctx.output_depth - off) ctx.max_load
      let r := processTile ctx off nc s buf
      convOuterLoop ctx fuel (off + ctx.max_load) r.1 r.2
    else some buf

/-- `ConvPerChannel4x4` (`conv_accel_gen_1.cc`, lines 50-160).  `output_data`
is the output buffer the call mutates; the returned value is its final
contents (`none` if the outer loop never terminates).  `maxFilterWords` stands
for the compile-time constant `MAX_FILTER_WORDS` and `rescale` for the
external post-processing rescale formula (see `PostProcess`). -/
def ConvPerChannel4x4 (maxFilterWords : Nat) (rescale : Int → Int → Int → Int) (fuel : Nat)
    (params : ConvParams) (output_multiplier output_shift : List Int)
    (input_shape : RuntimeShape) (input_data : List Int)
    (filter_shape : RuntimeShape) (filter_data : List Int)
    (_bias_shape : RuntimeShape) (bias_data : List Int)
    (output_shape : RuntimeShape) (output_data : List Int) : Option (List Int) :=
  let input_depth := MatchingDim input_shape 3 filter_shape 3
  let output_depth := MatchingDim filter_shape 0 output_shape 3
  let s0 := SetOutputOffsets params.output_offset params.quantized_activation_min
              params.quantized_activation_max
              (LoadInputOffset params.input_offset initAccelState)
  let ctx : ConvCtx :=
    { rescale := rescale,
      input_shape := input_shape, input_data := input_data,
      filter_shape := filter_shape, filter_data := filter_data,
      bias_data := bias_data,
      output_multiplier := output_multiplier, output_shift := output_shift,
      output_shape := output_shape,
      stride_width := params.stride_width, stride_height := params.stride_height,
      input_depth := input_depth, output_depth := output_depth,
      max_load := maxOutputChannelsPerLoad maxFilterWords input_depth }
  convOuterLoop ctx fuel 0 s0 output_data

/-- The (offset, width) pairs visited by the outer tiling loop of
`ConvPerChannel4x4` (`conv_accel_gen_1.cc`, lines 111-114), metered by fuel
exactly like `convOuterLoop`. -/
def tileList (output_depth max_load : Nat) : Nat → Nat → List (Nat × Nat)
  | 0, _ => []
  | fuel + 1, off =>
    if off < output_depth then
      (off, min (output_depth - off) max_load) ::
        tileList output_depth max_load fuel (off + max_load)
    else []

/-- Modelled from the spec: the raw accumulator of the pure-software reference
per-channel convolution kernel (`conv.h`'s `ConvPerChannel`, not part of the
sources) at one output position, for the accelerated case (batch 1, "valid"
padding, unit dilation): the sum over the filter extent and input channels of
`(input + input_offset) * filter_weight`. -/
def refAcc (params : ConvParams) (input_shape : RuntimeShape) (input_data : List Int)
    (filter_shape : RuntimeShape) (filter_data : List Int)
    (out_y out_x out_channel : Nat) : Int :=
  isum (filter_shape.Dims 1) fun filter_y =>
    isum (filter_shape.Dims 2) fun filter_x =>
      isum (MatchingDim input_shape 3 filter_shape 3) fun in_channel =>
        (tget input_data (Offset input_shape 0 (out_y * params.stride_height + filter_y)
            (out_x * params.stride_width + filter_x) in_channel) + params.input_offset) *
          tget filter_data (Offset filter_shape out_channel filter_y filter_x in_channel)

/-- Modelled from the spec: one output value of the reference kernel — the raw
accumulator plus the channel's bias, rescaled through the per-channel
(multiplier, shift) pair (the shared abstract `rescale`), plus the output
offset, clamped to the activation range. -/
def refVal (rescale : Int → Int → Int → Int) (params : ConvParams)
    (output_multiplier output_shift bias_data : List Int)
    (input_shape : RuntimeShape) (input_data : List Int)
    (filter_shape : RuntimeShape) (filter_data : List Int)
    (out_y out_x out_channel : Nat) : Int :=
  let acc := refAcc params input_shape input_data filter_shape filter_data
               out_y out_x out_channel + tget bias_data out_channel
  let scaled := rescale acc (tget output_multiplier out_channel)
                  (tget output_shift out_channel) + params.output_offset
  min params.quantized_activation_max (max params.quantized_activation_min scaled)

/-- Modelled from the spec: the full output tensor of the reference kernel for
batch 1, flattened in row-major (y, x, channel) order. -/
def referenceConv (rescale : Int → Int → Int → Int) (params : ConvParams)
    (output_multiplier output_shift : List Int)
    (input_shape : RuntimeShape) (input_data : List Int)
    (filter_shape : RuntimeShape) (filter_data : List Int)
    (bias_data : List Int) (output_shape : RuntimeShape) : List Int :=
  (List.range (output_shape.Dims 1)).flatMap fun out_y =>
    (List.range (output_shape.Dims 2)).flatMap fun out_x =>
      (List.range (output_shape.Dims 3)).map fun out_channel =>
        refVal rescale params output_multiplier output_shift bias_data
          input_shape input_data filter_shape filter_data out_y out_x out_channel

/-- `static_cast<int8_t>` of a value: wrap into [-128, 127]. -/
def toInt8 (x : Int) : Int := (x + 128) % 256 - 128

/-- The diff counter of `test_conv2d` (`conv2d_call.cc`, lines 51-56): the
number of positions `i < output_shape.FlatSize()` where the produced output
byte differs from `(int8_t)data->output_data[i]`. -/
def diffCount (arena_output output_data : List Int) (n : Nat) : Nat :=
  ((List.range n).filter fun i => tget arena_output i != toInt8 (tget output_data i)).length

/-- The pass/fail verdict of `test_conv2d` (`conv2d_call.cc`, lines 69-73):
"OK" is printed exactly when the diff count is zero. -/
def testConv2dReportsOk (arena_output output_data : List Int) (n : Nat) : Bool :=
  diffCount arena_output output_data n == 0

/-- The indices at which the diagnostic loop of `test_conv2d`
(`conv2d_call.cc`, lines 62-66) reads `expected_words`: the loop runs
`i = 0, ..., 31` and reads `expected_words[i - 4]` with `int` arithmetic. -/
def diffReportExpectedIndices : List Int := (List.range 32).map fun i => (i : Int) - 4


/-- The raw accumulator the accelerator model produces for local channel `i`
of a tile with filter values `fv`, from input window `win` of depth `d`. -/
def modelChannelAcc (win fv : List Int) (inOff : Int) (d i : Nat) : Int :=
  isum (16 * d) fun k => (tget win k + inOff) * tget fv (i * (16 * d) + k)

/-- The input window gathered by `LoadInput` for the output pixel
(`out_y`, `out_x`). -/
def pixelWindow (ctx : ConvCtx) (out_y out_x : Nat) : List Int :=
  (List.range 4).flatMap fun fy =>
    sliceL ctx.input_data
      (Offset ctx.input_shape 0 (out_y * ctx.stride_height) (out_x * ctx.stride_width) 0 +
        fy * (RuntimeShape.Dims ctx.input_shape 2 * ctx.input_depth))
      (4 * ctx.input_depth)

/-- The buffer after the writes of the first `n` output pixels of a tile:
pixel `q` writes the value list `vals q` at byte position `base + q * stride`. -/
def tileWrites (vals : Nat → List Int) (base stride : Nat) : Nat → List Int → List Int
  | 0, buf => buf
  | n + 1, buf => writeList (tileWrites vals base stride n buf) (base + n * stride) (vals n)

/-- A concrete rescale formula (multiply then arithmetic shift right) used to
instantiate the abstract per-channel rescale in concrete runs. -/
def exampleRescale : Int → Int → Int → Int := fun a m s => a * m / 2 ^ s.toNat

/-- Convolution parameters of the concrete runs: "valid" padding, unit strides
and dilations, zero quantization offsets, full int8 activation range. -/
def exampleParams : ConvParams :=
  { padding_type := PaddingType.kValid, padding_width := 0, padding_height := 0,
    stride_width := 1, stride_height := 1,
    dilation_width_factor := 1, dilation_height_factor := 1,
    input_offset := 0, output_offset := 0,
    quantized_activation_min := -128, quantized_activation_max := 127 }

/-- Concrete parameters with nonzero quantization offsets. -/
def exampleParamsOffset : ConvParams :=
  { exampleParams with input_offset := 3, output_offset := -5 }

/-- Concrete 1x5x5x4 input tensor data. -/
def exampleInput : List Int := (List.range 100).map fun i => (i : Int) % 7 - 3

/-- Concrete 4x4x4x4 filter tensor data. -/
def exampleFilter : List Int := (List.range 256).map fun i => (i : Int) % 5 - 2

theorem tget_nil (n : Nat) : tget [] n = 0 := rfl

theorem tget_cons_zero (v : Int) (l : List Int) : tget (v :: l) 0 = v := rfl

theorem tget_cons_succ (v : Int) (l : List Int) (n : Nat) :
    tget (v :: l) (n + 1) = tget l n := rfl

theorem tget_append_left : ∀ (xs ys : List Int) (i : Nat), i < xs.length →
    tget (xs ++ ys) i = tget xs i
  | [], _, i, h => by simp at h
  | x :: xs, ys, 0, _ => rfl
  | x :: xs, ys, i + 1, h =>
      tget_append_left xs ys i (by simpa using Nat.lt_of_succ_lt_succ h)

theorem tget_append_right : ∀ (xs ys : List Int) (i : Nat),
    tget (xs ++ ys) (xs.length + i) = tget ys i
  | [], _, i => by simp
  | x :: xs, ys, i => by
      have : x :: xs ++ ys = x :: (xs ++ ys) := rfl
      rw [this]
      have hlen : (x :: xs).length + i = (xs.length + i) + 1 := by
        simp [Nat.succ_add]
      rw [hlen, tget_cons_succ]
      exact tget_append_right xs ys i

theorem sliceL_length (l : List Int) : ∀ (n : Nat) (b : Nat), (sliceL l b n).length = n
  | 0, _ => rfl
  | n + 1, b => by simp [sliceL, sliceL_length l n (b + 1)]

theorem tget_sliceL (l : List Int) : ∀ (n b i : Nat), i < n →
    tget (sliceL l b n) i = tget l (b + i)
  | 0, _, i, h => absurd h (Nat.not_lt_zero i)
  | n + 1, b, 0, _ => by simp [sliceL, tget_cons_zero]
  | n + 1, b, i + 1, h => by
      rw [sliceL, tget_cons_succ, tget_sliceL l n (b + 1) i (Nat.lt_of_succ_lt_succ h)]
      ring_nf

theorem tset_length : ∀ (buf : List Int) (i : Nat) (v : Int),
    (tset buf i v).length = buf.length
  | [], _, _ => rfl
  | _ :: l, 0, v => rfl
  | x :: l, n + 1, v => by simp [tset, tset_length l n v]

theorem tget_tset_eq : ∀ (buf : List Int) (i : Nat) (v : Int), i < buf.length →
    tget (tset buf i v) i = v
  | [], i, _, h => by simp at h
  | _ :: l, 0, v, _ => rfl
  | x :: l, n + 1, v, h => by
      rw [tset, tget_cons_succ]
      exact tget_tset_eq l n v (by simpa using Nat.lt_of_succ_lt_succ h)

theorem tget_tset_ne : ∀ (buf : List Int) (i j : Nat) (v : Int), i ≠ j →
    tget (tset buf i v) j = tget buf j
  | [], _, _, _, _ => rfl
  | _ :: l, 0, 0, v, h => absurd rfl h
  | _ :: l, 0, j + 1, v, _ => rfl
  | x :: l, n + 1, 0, v, _ => rfl
  | x :: l, n + 1, j + 1, v, h => by
      rw [tset, tget_cons_succ, tget_cons_succ]
      exact tget_tset_ne l n j v (fun hc => h (by rw [hc]))

theorem writeList_length : ∀ (vs : List Int) (buf : List Int) (i : Nat),
    (writeList buf i vs).length = buf.length
  | [], _, _ => rfl
  | v :: vs, buf, i => by
      rw [writeList, writeList_length vs, tset_length]

theorem tget_writeList_lt : ∀ (vs : List Int) (buf : List Int) (i j : Nat), j < i →
    tget (writeList buf i vs) j = tget buf j
  | [], _, _, _, _ => rfl
  | v :: vs, buf, i, j, h => by
      rw [writeList, tget_writeList_lt vs _ (i + 1) j (Nat.lt_succ_of_lt h),
        tget_tset_ne buf i j v (Nat.ne_of_gt h)]

theorem tget_writeList_ge : ∀ (vs : List Int) (buf : List Int) (i j : Nat),
    i + vs.length ≤ j → tget (writeList buf i vs) j = tget buf j
  | [], _, _, _, _ => rfl
  | v :: vs, buf, i, j, h => by
      rw [writeList, tget_writeList_ge vs _ (i + 1) j (by simp at h; omega),
        tget_tset_ne buf i j v (by simp at h; omega)]

theorem tget_writeList_mid : ∀ (vs : List Int) (buf : List Int) (i k : Nat),
    k < vs.length → i + vs.length ≤ buf.length →
    tget (writeList buf i vs) (i + k) = tget vs k
  | [], _, _, k, hk, _ => absurd hk (by simp)
  | v :: vs, buf, i, 0, _, hlen => by
      rw [writeList]
      simp only [Nat.add_zero]
      rw [tget_writeList_lt vs _ (i + 1) i (Nat.lt_succ_self i),
        tget_tset_eq buf i v (by simp at hlen; omega), tget_cons_zero]
  | v :: vs, buf, i, k + 1, hk, hlen => by
      rw [writeList, tget_cons_succ]
      have : i + (k + 1) = (i + 1) + k := by omega
      rw [this]
      exact tget_writeList_mid vs _ (i + 1) k (by simpa using Nat.lt_of_succ_lt_succ hk)
        (by rw [tset_length]; simp at hlen; omega)

theorem isum_zero (f : Nat → Int) : isum 0 f = 0 := rfl

theorem isum_succ (n : Nat) (f : Nat → Int) : isum (n + 1) f = isum n f + f n := by
  simp [isum, List.range_succ]

theorem isum_congr {n : Nat} {f g : Nat → Int} (h : ∀ k, k < n → f k = g k) :
    isum n f = isum n g := by
  induction n with
  | zero => rfl
  | succ m ih =>
      rw [isum_succ, isum_succ, ih (fun k hk => h k (Nat.lt_succ_of_lt hk)),
        h m (Nat.lt_succ_self m)]

theorem isum_add (m n : Nat) (f : Nat → Int) :
    isum (m + n) f = isum m f + isum n (fun k => f (m + k)) := by
  induction n with
  | zero => simp [isum_zero]
  | succ p ih =>
      have : m + (p + 1) = (m + p) + 1 := by omega
      rw [this, isum_succ, ih, isum_succ]
      ring

theorem isum_mul (a b : Nat) (f : Nat → Int) :
    isum (a * b) f = isum a (fun i => isum b (fun j => f (i * b + j))) := by
  induction a with
  | zero => simp [isum_zero]
  | succ p ih =>
      have : (p + 1) * b = p * b + b := by ring
      rw [this, isum_add, ih, isum_succ]

theorem RuntimeShape.Dims_zero (s : RuntimeShape) : s.Dims 0 = s.d0 := rfl

theorem RuntimeShape.Dims_one (s : RuntimeShape) : s.Dims 1 = s.d1 := rfl

theorem RuntimeShape.Dims_two (s : RuntimeShape) : s.Dims 2 = s.d2 := rfl

theorem RuntimeShape.Dims_three (s : RuntimeShape) : s.Dims 3 = s.d3 := rfl

/-- C2: `CanAccelerateConv4x4` returns true iff the padding mode is "valid",
the input channel depth is 1 or a multiple of 4, the filter spatial extent is
exactly 4x4, both dilation factors are 1, the batch dimension is 1, and the
bias pointer is non-null. -/
theorem canAccelerateConv4x4_iff (params : ConvParams)
    (input_shape filter_shape output_shape : RuntimeShape)
    (bias_data : Option (List Int)) :
    CanAccelerateConv4x4 params input_shape filter_shape output_shape bias_data = true ↔
      (params.padding_type = PaddingType.kValid ∧
       (input_shape.d3 = 1 ∨ input_shape.d3 % 4 = 0) ∧
       filter_shape.d2 = 4 ∧ filter_shape.d1 = 4 ∧
       params.dilation_width_factor = 1 ∧ params.dilation_height_factor = 1 ∧
       input_shape.d0 = 1 ∧ bias_data ≠ none) := by
  simp [CanAccelerateConv4x4, MatchingDim, RuntimeShape.Dims_zero, RuntimeShape.Dims_one,
    RuntimeShape.Dims_two, RuntimeShape.Dims_three, Bool.and_eq_true, Bool.or_eq_true,
    beq_iff_eq, Option.isSome_iff_ne_none, and_assoc]

/-- C3: the engine's tile-size arithmetic — `filter_words_per_output_channel`
is `input_depth * 4 * 4 / 4`, `max_output_channels_per_load` is
`MAX_FILTER_WORDS / filter_words_per_output_channel / 4 * 4`; the tile size is
a multiple of 4 and a full tile of filter weights fits in `MAX_FILTER_WORDS`
words. -/
theorem tileArithmetic_spec (maxFilterWords input_depth : Nat)
    (_h : 0 < input_depth) :
    filterWordsPerOutputChannel input_depth = input_depth * 4 * 4 / 4 ∧
    maxOutputChannelsPerLoad maxFilterWords input_depth =
      maxFilterWords / filterWordsPerOutputChannel input_depth / 4 * 4 ∧
    4 ∣ maxOutputChannelsPerLoad maxFilterWords input_depth ∧
    filterWordsPerOutputChannel input_depth *
        maxOutputChannelsPerLoad maxFilterWords input_depth ≤ maxFilterWords := by
  refine ⟨rfl, rfl, dvd_mul_left 4 _, ?_⟩
  have h1 : maxFilterWords / filterWordsPerOutputChannel input_depth / 4 * 4 ≤
      maxFilterWords / filterWordsPerOutputChannel input_depth :=
    Nat.div_mul_le_self _ 4
  calc filterWordsPerOutputChannel input_depth *
        maxOutputChannelsPerLoad maxFilterWords input_depth
      ≤ filterWordsPerOutputChannel input_depth *
          (maxFilterWords / filterWordsPerOutputChannel input_depth) :=
        Nat.mul_le_mul_left _ h1
    _ = maxFilterWords / filterWordsPerOutputChannel input_depth *
          filterWordsPerOutputChannel input_depth := Nat.mul_comm _ _
    _ ≤ maxFilterWords := Nat.div_mul_le_self _ _

/-- Witness for C3 at `MAX_FILTER_WORDS = 2048`, depth 8. -/
theorem tileArithmetic_spec_witness :
    0 < 8 ∧
    (filterWordsPerOutputChannel 8 = 8 * 4 * 4 / 4 ∧
     maxOutputChannelsPerLoad 2048 8 = 2048 / filterWordsPerOutputChannel 8 / 4 * 4 ∧
     4 ∣ maxOutputChannelsPerLoad 2048 8 ∧
     filterWordsPerOutputChannel 8 * maxOutputChannelsPerLoad 2048 8 ≤ 2048) :=
  ⟨by decide, tileArithmetic_spec 2048 8 (by decide)⟩

theorem tileList_widths (output_depth max_load : Nat) :
    ∀ (fuel off : Nat) (t : Nat × Nat), t ∈ tileList output_depth max_load fuel off →
      t.2 = min (output_depth - t.1) max_load
  | 0, _, t, h => absurd h (by simp [tileList])
  | fuel + 1, off, t, h => by
      rw [tileList] at h
      by_cases hlt : off < output_depth
      · simp only [if_pos hlt, List.mem_cons] at h
        rcases h with h | h
        · rw [h]
        · exact tileList_widths output_depth max_load fuel (off + max_load) t h
      · simp [if_neg hlt] at h

theorem tileList_offsets (output_depth max_load : Nat) :
    ∀ (fuel off : Nat), off % max_load = 0 →
      ∀ (t : Nat × Nat), t ∈ tileList output_depth max_load fuel off → t.1 % max_load = 0
  | 0, _, _, t, h => absurd h (by simp [tileList])
  | fuel + 1, off, hoff, t, h => by
      rw [tileList] at h
      by_cases hlt : off < output_depth
      · simp only [if_pos hlt, List.mem_cons] at h
        rcases h with h | h
        · rw [h]; exact hoff
        · exact tileList_offsets output_depth max_load fuel (off + max_load)
            (by rw [Nat.add_mod_right]; exact hoff) t h
      · simp [if_neg hlt] at h

theorem tileList_flatMap_ranges (output_depth max_load : Nat) :
    ∀ (fuel off : Nat), output_depth - off ≤ fuel * max_load →
      (tileList output_depth max_load fuel off).flatMap
          (fun t => List.range' t.1 t.2) = List.range' off (output_depth - off)
  | 0, off, h => by
      have : output_depth - off = 0 := by omega
      simp [tileList, this]
  | fuel + 1, off, h => by
      rw [tileList]
      by_cases hlt : off < output_depth
      · rw [if_pos hlt]
        have hexp : (fuel + 1) * max_load = fuel * max_load + max_load := by ring
        have hrec := tileList_flatMap_ranges output_depth max_load fuel (off + max_load)
          (by omega)
        simp only [List.flatMap_cons, hrec]
        by_cases hsmall : output_depth - off ≤ max_load
        · have h1 : min (output_depth - off) max_load = output_depth - off := by omega
          have h2 : output_depth - (off + max_load) = 0 := by omega
          simp [h1, h2]
        · have h1 : min (output_depth - off) max_load = max_load := by omega
          have h2 : output_depth - (off + max_load) = output_depth - off - max_load := by
            omega
          rw [h1, h2]
          have := List.range'_append off max_load (output_depth - off - max_load) 1
          simp only [Nat.one_mul] at this
          rw [this]
          congr 1
          omega
      · rw [if_neg hlt]
        have : output_depth - off = 0 := by omega
        simp [this]

theorem convOuterLoop_eq_foldl_tileList (ctx : ConvCtx) :
    ∀ (fuel off : Nat) (s : AccelState) (buf : List Int),
      ctx.output_depth - off ≤ fuel * ctx.max_load →
      convOuterLoop ctx fuel off s buf =
        some (((tileList ctx.output_depth ctx.max_load fuel off).foldl
          (fun r t => processTile ctx t.1 t.2 r.1 r.2) (s, buf)).2)
  | 0, off, s, buf, h => by
      have hlt : ¬ off < ctx.output_depth := by omega
      simp [convOuterLoop, tileList, hlt]
  | fuel + 1, off, s, buf, h => by
      rw [convOuterLoop, tileList]
      by_cases hlt : off < ctx.output_depth
      · rw [if_pos hlt, if_pos hlt]
        simp only [List.foldl_cons]
        have hexp : (fuel + 1) * ctx.max_load = fuel * ctx.max_load + ctx.max_load := by
          ring
        exact convOuterLoop_eq_foldl_tileList ctx fuel (off + ctx.max_load) _ _
          (by omega)
      · rw [if_neg hlt, if_neg hlt]
        simp [tileList]

/-- C4: the outer tiling loop visits output-channel offsets 0, `max_load`,
2·`max_load`, ... below `output_depth`, each tile `min (output_depth - off)
max_load` channels wide; concatenating the tiles' channel ranges in loop order
yields exactly the channel range `[0, output_depth)` (so the tiles are
disjoint, contiguous and cover every output channel exactly once), and — for
any engine context with these loop bounds and sufficient fuel — running the
engine's outer loop is exactly folding `processTile` over this tile list. -/
theorem tileList_covers (output_depth max_load fuel : Nat)
    (hL : 0 < max_load) (hfuel : output_depth ≤ fuel) :
    (∀ t ∈ tileList output_depth max_load fuel 0,
        t.2 = min (output_depth - t.1) max_load ∧ t.1 % max_load = 0) ∧
    (tileList output_depth max_load fuel 0).flatMap
        (fun t => List.range' t.1 t.2) = List.range output_depth ∧
    (∀ (ctx : ConvCtx) (s : AccelState) (buf : List Int),
      ctx.output_depth = output_depth → ctx.max_load = max_load →
      convOuterLoop ctx fuel 0 s buf =
        some (((tileList output_depth max_load fuel 0).foldl
          (fun r t => processTile ctx t.1 t.2 r.1 r.2) (s, buf)).2)) := by
  have hcap : output_depth - 0 ≤ fuel * max_load := by
    have : fuel * 1 ≤ fuel * max_load := Nat.mul_le_mul_left fuel hL
    omega
  refine ⟨fun t ht => ⟨tileList_widths _ _ _ _ t ht,
      tileList_offsets _ _ _ 0 (Nat.zero_mod _) t ht⟩, ?_, ?_⟩
  · rw [tileList_flatMap_ranges output_depth max_load fuel 0 hcap,
      List.range_eq_range', Nat.sub_zero]
  · intro ctx s buf hD hM
    subst hD; subst hM
    exact convOuterLoop_eq_foldl_tileList ctx fuel 0 s buf hcap

/-- Witness for C4: output depth 6, tile size 4, fuel 8 — tiles (0,4), (4,2). -/
theorem tileList_covers_witness :
    0 < 4 ∧ 6 ≤ 8 ∧
    ((∀ t ∈ tileList 6 4 8 0, t.2 = min (6 - t.1) 4 ∧ t.1 % 4 = 0) ∧
     (tileList 6 4 8 0).flatMap (fun t => List.range' t.1 t.2) = List.range 6 ∧
     (∀ (ctx : ConvCtx) (s : AccelState) (buf : List Int),
       ctx.output_depth = 6 → ctx.max_load = 4 →
       convOuterLoop ctx 8 0 s buf =
         some (((tileList 6 4 8 0).foldl
           (fun r t => processTile ctx t.1 t.2 r.1 r.2) (s, buf)).2))) :=
  ⟨by decide, by decide, tileList_covers 6 4 8 (by decide) (by decide)⟩

/-- C6: under "valid"-padding shape consistency, the input window of every
output pixel lies inside the input tensor: the engine's bounds-check
assertions `in_y_origin + filter_height <= input_height` and
`in_x_origin + filter_width <= input_width` hold, and every flat input offset
the window load touches is below the input's flat size. -/
theorem convWindowInBounds (input_shape : RuntimeShape)
    (stride_height stride_width output_height output_width : Nat)
    (out_y out_x fy fx c : Nat)
    (hd0 : input_shape.d0 = 1)
    (hsh : 0 < stride_height) (hsw : 0 < stride_width)
    (hih : 4 ≤ input_shape.d1) (hiw : 4 ≤ input_shape.d2)
    (hoh : output_height = (input_shape.d1 - 4) / stride_height + 1)
    (how : output_width = (input_shape.d2 - 4) / stride_width + 1)
    (hy : out_y < output_height) (hx : out_x < output_width)
    (hfy : fy < 4) (hfx : fx < 4) (hc : c < input_shape.d3) :
    out_y * stride_height + 4 ≤ input_shape.Dims 1 ∧
    out_x * stride_width + 4 ≤ input_shape.Dims 2 ∧
    Offset input_shape 0 (out_y * stride_height + fy) (out_x * stride_width + fx) c <
      input_shape.FlatSize := by
  have hy1 : out_y ≤ (input_shape.d1 - 4) / stride_height := by omega
  have hx1 : out_x ≤ (input_shape.d2 - 4) / stride_width := by omega
  have hy2 : out_y * stride_height ≤ (input_shape.d1 - 4) / stride_height * stride_height :=
    Nat.mul_le_mul_right _ hy1
  have hx2 : out_x * stride_width ≤ (input_shape.d2 - 4) / stride_width * stride_width :=
    Nat.mul_le_mul_right _ hx1
  have hy3 : (input_shape.d1 - 4) / stride_height * stride_height ≤ input_shape.d1 - 4 :=
    Nat.div_mul_le_self _ _
  have hx3 : (input_shape.d2 - 4) / stride_width * stride_width ≤ input_shape.d2 - 4 :=
    Nat.div_mul_le_self _ _
  have hyb : out_y * stride_height + 4 ≤ input_shape.d1 := by omega
  have hxb : out_x * stride_width + 4 ≤ input_shape.d2 := by omega
  refine ⟨hyb, hxb, ?_⟩
  have hylt : out_y * stride_height + fy < input_shape.d1 := by omega
  have hxlt : out_x * stride_width + fx < input_shape.d2 := by omega
  rw [Offset, RuntimeShape.FlatSize, hd0]
  simp only [Nat.zero_mul, Nat.zero_add, Nat.one_mul]
  have h1 : (out_y * stride_height + fy) * input_shape.d2 +
      (out_x * stride_width + fx) + 1 ≤ input_shape.d1 * input_shape.d2 := by
    have hstep : (out_y * stride_height + fy + 1) * input_shape.d2 ≤
        input_shape.d1 * input_shape.d2 := Nat.mul_le_mul_right _ (by omega)
    rw [Nat.add_mul, Nat.one_mul] at hstep
    omega
  have h2 := Nat.mul_le_mul_right input_shape.d3 h1
  rw [Nat.add_mul, Nat.one_mul] at h2
  have hc3 : c < input_shape.d3 := hc
  omega

/-- Witness for C6: input 1x6x7x4, strides (2,1), output extent 2x4, at the
last output pixel and last window position. -/
theorem convWindowInBounds_witness :
    RuntimeShape.d0 ⟨1, 6, 7, 4⟩ = 1 ∧ 0 < 2 ∧ 0 < 1 ∧
    4 ≤ RuntimeShape.d1 ⟨1, 6, 7, 4⟩ ∧ 4 ≤ RuntimeShape.d2 ⟨1, 6, 7, 4⟩ ∧
    (1 * 2 + 4 ≤ RuntimeShape.Dims ⟨1, 6, 7, 4⟩ 1 ∧
     3 * 1 + 4 ≤ RuntimeShape.Dims ⟨1, 6, 7, 4⟩ 2 ∧
     Offset ⟨1, 6, 7, 4⟩ 0 (1 * 2 + 3) (3 * 1 + 3) 3 < RuntimeShape.FlatSize ⟨1, 6, 7, 4⟩) :=
  ⟨rfl, by decide, by decide, by decide, by decide,
    convWindowInBounds ⟨1, 6, 7, 4⟩ 2 1 2 4 1 3 3 3 3 rfl (by decide) (by decide)
      (by decide) (by decide) (by decide) (by decide) (by decide) (by decide)
      (by decide) (by decide) (by decide)⟩

theorem AdvanceFilterInput_trace : ∀ (n : Nat) (s : AccelState),
    (AdvanceFilterInput n s).trace = s.trace ++ List.replicate n AccelEvent.advance
  | 0, s => by simp [AdvanceFilterInput]
  | n + 1, s => by
      rw [AdvanceFilterInput, AdvanceFilterInput_trace n]
      simp [advanceStep, List.replicate_succ]

/-- C7: for every output channel the engine's channel loop issues exactly
`filter_height * filter_width * input_depth / 16` stream-advance steps, then
exactly one multiply-accumulate trigger, then exactly one `PostProcess` call:
processing `n` channels appends `n` copies of that exact protocol block to
the accelerator trace. -/
theorem processChannels_protocol (rescale : Int → Int → Int → Int)
    (input_depth : Nat) : ∀ (n : Nat) (s : AccelState),
    (processChannels rescale (4 * 4 * input_depth / 16) n s).trace =
      s.trace ++ (List.replicate n
        (List.replicate (4 * 4 * input_depth / 16) AccelEvent.advance ++
          [AccelEvent.macc, AccelEvent.post])).flatten
  | 0, s => by simp [processChannels]
  | n + 1, s => by
      rw [processChannels]
      rw [processChannels_protocol rescale input_depth n]
      simp [PostProcess, multiply_accumulate, AdvanceFilterInput_trace,
        List.replicate_succ]

/-- C8: the harness's verdict — `test_conv2d` prints "OK" iff the diff count
is zero, iff every output element equals the corresponding expected element
(cast to `int8_t`). -/
theorem testConv2dReportsOk_iff (arena_output output_data : List Int) (n : Nat) :
    testConv2dReportsOk arena_output output_data n = true ↔
      ∀ i < n, tget arena_output i = toInt8 (tget output_data i) := by
  simp [testConv2dReportsOk, diffCount, List.length_eq_zero, List.filter_eq_nil_iff,
    List.mem_range, bne_iff_ne]

/-- C9: the diagnostic loop of `test_conv2d` runs `i = 0..31` and reads
`expected_words[i - 4]`; on each of its first four iterations the index is
negative, an out-of-bounds read before the start of the expected array. -/
theorem diffReportExpectedIndices_negative :
    diffReportExpectedIndices.length = 32 ∧
    diffReportExpectedIndices.take 4 = [-4, -3, -2, -1] ∧
    ∀ x ∈ diffReportExpectedIndices.take 4, x < 0 := by decide

theorem convOuterLoop_none (ctx : ConvCtx) (hL : ctx.max_load = 0)
    (hD : 0 < ctx.output_depth) :
    ∀ (fuel : Nat) (s : AccelState) (buf : List Int),
      convOuterLoop ctx fuel 0 s buf = none
  | 0, s, buf => by rw [convOuterLoop, if_pos hD]
  | fuel + 1, s, buf => by
      have h0 : 0 + ctx.max_load = 0 := by rw [hL]
      rw [convOuterLoop, if_pos hD]
      simp only [h0]
      exact convOuterLoop_none ctx hL hD fuel _ _

/-- C10: the computed tile size is positive iff `input_depth <=
MAX_FILTER_WORDS / 16`; for an eligible input deep enough to exceed that
capacity bound (which `CanAccelerateConv4x4` never checks) the tile size is 0,
the outer loop's offset never advances, and `ConvPerChannel4x4` fails to
terminate — it returns `none` for every fuel. -/
theorem convCapacityNontermination (maxFilterWords fuel : Nat)
    (rescale : Int → Int → Int → Int) (params : ConvParams)
    (output_multiplier output_shift : List Int)
    (input_shape filter_shape bias_shape output_shape : RuntimeShape)
    (input_data filter_data bias_data output_data : List Int)
    (hd : 0 < input_shape.d3)
    (_helig : CanAccelerateConv4x4 params input_shape filter_shape output_shape
      (some bias_data) = true)
    (hcap : maxFilterWords < 16 * input_shape.d3)
    (hD : 0 < filter_shape.d0) :
    (0 < maxOutputChannelsPerLoad maxFilterWords input_shape.d3 ↔
      input_shape.d3 ≤ maxFilterWords / 16) ∧
    maxOutputChannelsPerLoad maxFilterWords input_shape.d3 = 0 ∧
    ConvPerChannel4x4 maxFilterWords rescale fuel params output_multiplier output_shift
      input_shape input_data filter_shape filter_data bias_shape bias_data
      output_shape output_data = none := by
  have hF : filterWordsPerOutputChannel input_shape.d3 = 4 * input_shape.d3 := by
    rw [filterWordsPerOutputChannel]; omega
  have h4d : 0 < 4 * input_shape.d3 := by omega
  have hiff : 0 < maxOutputChannelsPerLoad maxFilterWords input_shape.d3 ↔
      input_shape.d3 ≤ maxFilterWords / 16 := by
    rw [maxOutputChannelsPerLoad, hF]
    have step1 : 0 < maxFilterWords / (4 * input_shape.d3) / 4 * 4 ↔
        4 ≤ maxFilterWords / (4 * input_shape.d3) := by omega
    have step2 : 4 ≤ maxFilterWords / (4 * input_shape.d3) ↔
        4 * (4 * input_shape.d3) ≤ maxFilterWords := Nat.le_div_iff_mul_le h4d
    have step3 : input_shape.d3 ≤ maxFilterWords / 16 ↔
        input_shape.d3 * 16 ≤ maxFilterWords := Nat.le_div_iff_mul_le (by omega)
    rw [step1, step2, step3]
    constructor <;> intro h <;> omega
  have hzero : maxOutputChannelsPerLoad maxFilterWords input_shape.d3 = 0 := by
    by_contra hne
    have hpos : 0 < maxOutputChannelsPerLoad maxFilterWords input_shape.d3 := by omega
    have := hiff.mp hpos
    have h16 : input_shape.d3 * 16 ≤ maxFilterWords :=
      (Nat.le_div_iff_mul_le (by omega)).mp this
    omega
  refine ⟨hiff, hzero, ?_⟩
  rw [ConvPerChannel4x4]
  exact convOuterLoop_none _ hzero (by simp [MatchingDim, RuntimeShape.Dims_zero]; omega)
    fuel _ _

/-- Witness for C10: depth 4 with `MAX_FILTER_WORDS = 16` — one output
channel's filter needs 16 words, more than a quarter of filter memory, so the
tile size is 0 and the engine never terminates. -/
theorem convCapacityNontermination_witness :
    0 < RuntimeShape.d3 ⟨1, 4, 4, 4⟩ ∧
    CanAccelerateConv4x4
      { padding_type := PaddingType.kValid, padding_width := 0, padding_height := 0,
        stride_width := 1, stride_height := 1,
        dilation_width_factor := 1, dilation_height_factor := 1,
        input_offset := 0, output_offset := 0,
        quantized_activation_min := -128, quantized_activation_max := 127 }
      ⟨1, 4, 4, 4⟩ ⟨4, 4, 4, 4⟩ ⟨1, 1, 1, 4⟩ (some [0, 0, 0, 0]) = true ∧
    16 < 16 * RuntimeShape.d3 ⟨1, 4, 4, 4⟩ ∧
    0 < RuntimeShape.d0 (⟨4, 4, 4, 4⟩ : RuntimeShape) ∧
    ((0 < maxOutputChannelsPerLoad 16 (RuntimeShape.d3 ⟨1, 4, 4, 4⟩) ↔
        RuntimeShape.d3 ⟨1, 4, 4, 4⟩ ≤ 16 / 16) ∧
     maxOutputChannelsPerLoad 16 (RuntimeShape.d3 ⟨1, 4, 4, 4⟩) = 0 ∧
     ConvPerChannel4x4 16 (fun a _ _ => a) 5
       { padding_type := PaddingType.kValid, padding_width := 0, padding_height := 0,
         stride_width := 1, stride_height := 1,
         dilation_width_factor := 1, dilation_height_factor := 1,
         input_offset := 0, output_offset := 0,
         quantized_activation_min := -128, quantized_activation_max := 127 }
       [1, 1, 1, 1] [0, 0, 0, 0] ⟨1, 4, 4, 4⟩ [] ⟨4, 4, 4, 4⟩ [] ⟨1, 1, 1, 4⟩
       [0, 0, 0, 0] ⟨1, 1, 1, 4⟩ [0, 0, 0, 0] = none) :=
  ⟨by decide, by decide, by decide, by decide,
    convCapacityNontermination 16 5 (fun a _ _ => a) _ _ _ _ _ _ _ _ _ _ _
      (by decide) (by decide) (by decide) (by decide)⟩

theorem tget_map_range (f : Nat → Int) : ∀ (n j : Nat), j < n →
    tget ((List.range n).map f) j = f j := by
  intro n
  induction n with
  | zero => intro j h; omega
  | succ m ih =>
      intro j h
      rw [List.range_succ, List.map_append]
      by_cases hj : j < m
      · rw [tget_append_left _ _ j (by simpa using hj), ih j hj]
      · have hjm : j = m := by omega
        subst hjm
        have hlen : ((List.range j).map f).length = j := by simp
        have hr := tget_append_right ((List.range j).map f) ([j].map f) 0
        rw [hlen, Nat.add_zero] at hr
        rw [hr]
        rfl

theorem getD_map_range {α : Type} (f : Nat → α) (d : α) :
    ∀ (n j : Nat), j < n → (((List.range n).map f).getD j d) = f j := by
  intro n j h
  have hlen : j < ((List.range n).map f).length := by simpa using h
  rw [List.getD_eq_getElem _ _ hlen, List.getElem_map, List.getElem_range]

theorem length_flatMap_uniform (f : Nat → List Int) (m : Nat)
    (hm : ∀ i, (f i).length = m) :
    ∀ n : Nat, ((List.range n).flatMap f).length = n * m := by
  intro n
  induction n with
  | zero => simp
  | succ k ih =>
      rw [List.range_succ, List.flatMap_append, List.length_append, ih]
      simp [hm, Nat.succ_mul]

theorem tget_flatMap_uniform (f : Nat → List Int) (m : Nat)
    (hm : ∀ i, (f i).length = m) :
    ∀ (n q r : Nat), q < n → r < m →
      tget ((List.range n).flatMap f) (q * m + r) = tget (f q) r := by
  intro n
  induction n with
  | zero => intro q r hq; omega
  | succ k ih =>
      intro q r hq hr
      rw [List.range_succ, List.flatMap_append]
      by_cases hqk : q < k
      · rw [tget_append_left, ih q r hqk hr]
        rw [length_flatMap_uniform f m hm k]
        have h1 : (q + 1) * m ≤ k * m := Nat.mul_le_mul_right m (by omega)
        have h2 : q * m + m = (q + 1) * m := by ring
        omega
      · have hqe : q = k := by omega
        subst hqe
        have hpre : ((List.range q).flatMap f).length = q * m :=
          length_flatMap_uniform f m hm q
        have hright := tget_append_right ((List.range q).flatMap f) ([q].flatMap f) r
        rw [hpre] at hright
        rw [hright]
        simp

theorem list_eq_of_tget : ∀ (l1 l2 : List Int), l1.length = l2.length →
    (∀ i, i < l1.length → tget l1 i = tget l2 i) → l1 = l2
  | [], [], _, _ => rfl
  | [], _ :: _, h, _ => by simp at h
  | _ :: _, [], h, _ => by simp at h
  | a :: l1, b :: l2, h, hget => by
      have h0 : a = b := hget 0 (by simp)
      have hrest : l1 = l2 := list_eq_of_tget l1 l2 (by simpa using h)
        (fun i hi => hget (i + 1) (by simpa using Nat.succ_lt_succ hi))
      rw [h0, hrest]

theorem range_add_list (a : Nat) : ∀ (b : Nat),
    List.range (a + b) = List.range a ++ (List.range b).map (a + ·) := by
  intro b
  induction b with
  | zero => simp
  | succ k ih =>
      have h1 : a + (k + 1) = (a + k) + 1 := by omega
      rw [h1, List.range_succ, ih, List.range_succ, List.map_append,
        List.append_assoc]
      rfl

theorem foldl_congr_list {α β : Type} (l : List β) (f g : α → β → α)
    (h : ∀ a x, x ∈ l → f a x = g a x) : ∀ init, l.foldl f init = l.foldl g init := by
  induction l with
  | nil => intro init; rfl
  | cons x xs ih =>
      intro init
      rw [List.foldl_cons, List.foldl_cons, h init x (by simp)]
      exact ih (fun a y hy => h a y (by simp [hy])) _

theorem foldl_nested_range {α : Type} (W : Nat) (body : α → Nat → Nat → α)
    (g : α → Nat → α)
    (hbody : ∀ (a : α) (oy ox : Nat), ox < W → body a oy ox = g a (oy * W + ox)) :
    ∀ (H : Nat) (init : α),
      (List.range H).foldl
          (fun a oy => (List.range W).foldl (fun b ox => body b oy ox) a) init =
        (List.range (H * W)).foldl g init := by
  intro H
  induction H with
  | zero => intro init; simp
  | succ K ih =>
      intro init
      rw [List.range_succ, List.foldl_append, ih]
      have hmul : (K + 1) * W = K * W + W := by ring
      rw [hmul, range_add_list, List.foldl_append, List.foldl_map]
      simp only [List.foldl_cons, List.foldl_nil]
      exact foldl_congr_list _ _ _
        (fun a x hx => hbody a K x (List.mem_range.mp hx)) _

theorem AdvanceFilterInput_core : ∀ (n : Nat) (s : AccelState),
    (AdvanceFilterInput n s).core =
      ⟨s.inputOffset, s.outputOffset, s.actMin, s.actMax, s.filterVals,
        s.filterCursor + 16 * n, s.inputWindow, s.inputCursor + 16 * n,
        s.acc + isum (16 * n) (fun k =>
          (tget s.inputWindow ((s.inputCursor + k) % s.inputWindow.length) +
            s.inputOffset) *
            tget s.filterVals ((s.filterCursor + k) % s.filterVals.length)),
        s.outParams, s.opIndex, s.outQueue⟩
  | 0, s => by
      simp [AdvanceFilterInput, AccelState.core, isum_zero]
  | n + 1, s => by
      rw [AdvanceFilterInput, AdvanceFilterInput_core n]
      simp only [advanceStep, AccelCore.mk.injEq, and_true, true_and]
      refine ⟨by omega, by omega, ?_⟩
      have h1 : 16 * (n + 1) = 16 + 16 * n := by ring
      rw [h1, isum_add 16 (16 * n)]
      have h2 : ∀ k, k < 16 * n →
          (tget s.inputWindow ((s.inputCursor + 16 + k) % s.inputWindow.length) +
            s.inputOffset) *
            tget s.filterVals ((s.filterCursor + 16 + k) % s.filterVals.length) =
          (tget s.inputWindow ((s.inputCursor + (16 + k)) % s.inputWindow.length) +
            s.inputOffset) *
            tget s.filterVals ((s.filterCursor + (16 + k)) % s.filterVals.length) := by
        intro k _
        rw [Nat.add_assoc, Nat.add_assoc]
      rw [isum_congr h2]
      ring

theorem drainLoop_spec : ∀ (w : Nat) (s : AccelState) (buf : List Int) (base : Nat),
    s.outQueue.length = 4 * w →
    (drainLoop w s buf base).1.core = { s.core with outQueue := ([] : List Int) } ∧
    (drainLoop w s buf base).2 = writeList buf base s.outQueue
  | 0, s, buf, base, hq => by
      obtain ⟨io, oo, mn, mx, fv, fc, win, ic, a, op, oi, q, tr⟩ := s
      simp only at hq
      have hnil : q = [] := by simpa using hq
      subst hnil
      exact ⟨rfl, rfl⟩
  | w + 1, s, buf, base, hq => by
      obtain ⟨io, oo, mn, mx, fv, fc, win, ic, a, op, oi, q, tr⟩ := s
      simp only at hq
      rcases q with _ | ⟨q0, _ | ⟨q1, _ | ⟨q2, _ | ⟨q3, rest⟩⟩⟩⟩ <;>
        simp only [List.length] at hq <;> try omega
      have hrest : rest.length = 4 * w := by omega
      have hstep := drainLoop_spec w
        ⟨io, oo, mn, mx, fv, fc, win, ic, a, op, oi, rest,
          tr ++ [AccelEvent.getWord]⟩
        (storeWord buf base (q0, q1, q2, q3)) (base + 4) hrest
      refine ⟨?_, ?_⟩
      · show (drainLoop w
            ⟨io, oo, mn, mx, fv, fc, win, ic, a, op, oi, rest,
              tr ++ [AccelEvent.getWord]⟩
            (storeWord buf base (q0, q1, q2, q3)) (base + 4)).1.core = _
        rw [hstep.1]
        rfl
      · show (drainLoop w
            ⟨io, oo, mn, mx, fv, fc, win, ic, a, op, oi, rest,
              tr ++ [AccelEvent.getWord]⟩
            (storeWord buf base (q0, q1, q2, q3)) (base + 4)).2 = _
        rw [hstep.2]
        rfl

theorem AccelState.ext_core (s t : AccelState) (h1 : s.core = t.core)
    (h2 : s.trace = t.trace) : s = t := by
  obtain ⟨a1, a2, a3, a4, a5, a6, a7, a8, a9, a10, a11, a12, a13⟩ := s
  obtain ⟨b1, b2, b3, b4, b5, b6, b7, b8, b9, b10, b11, b12, b13⟩ := t
  simp only [AccelState.core, AccelCore.mk.injEq] at h1
  simp only at h2
  obtain ⟨rfl, rfl, rfl, rfl, rfl, rfl, rfl, rfl, rfl, rfl, rfl, rfl⟩ := h1
  rw [h2]

theorem AdvanceFilterInput_eq (n : Nat) (s : AccelState) :
    AdvanceFilterInput n s =
      ⟨s.inputOffset, s.outputOffset, s.actMin, s.actMax, s.filterVals,
        s.filterCursor + 16 * n, s.inputWindow, s.inputCursor + 16 * n,
        s.acc + isum (16 * n) (fun k =>
          (tget s.inputWindow ((s.inputCursor + k) % s.inputWindow.length) +
            s.inputOffset) *
            tget s.filterVals ((s.filterCursor + k) % s.filterVals.length)),
        s.outParams, s.opIndex, s.outQueue,
        s.trace ++ List.replicate n AccelEvent.advance⟩ :=
  AccelState.ext_core _ _ (AdvanceFilterInput_core n s) (AdvanceFilterInput_trace n s)


theorem processChannels_core (rescale : Int → Int → Int → Int) (d nc p : Nat) :
    ∀ (n i : Nat) (s : AccelState),
      i + n = nc →
      s.inputWindow.length = 16 * d →
      s.filterVals.length = nc * (16 * d) →
      s.outParams.length = nc →
      s.acc = 0 →
      s.inputCursor = i * (16 * d) →
      s.filterCursor = p * (nc * (16 * d)) + i * (16 * d) →
      s.opIndex = p * nc + i →
      (processChannels rescale d n s).core =
        ⟨s.inputOffset, s.outputOffset, s.actMin, s.actMax, s.filterVals,
          p * (nc * (16 * d)) + nc * (16 * d),
          s.inputWindow, nc * (16 * d), 0, s.outParams, p * nc + nc,
          s.outQueue ++ (List.range n).map fun j =>
            postVal rescale s.outputOffset s.actMin s.actMax
              (s.outParams.getD (i + j) (0, 0, 0))
              (modelChannelAcc s.inputWindow s.filterVals s.inputOffset d (i + j))⟩
  | 0, i, s => by
      intro hin hwin hfv hop hacc hic hfc hoi
      have hie : i = nc := by omega
      subst hie
      simp only [processChannels, AccelState.core, AccelCore.mk.injEq]
      and_intros <;> first | rfl | omega | exact hacc | simp
  | n + 1, i, s => by
      intro hin hwin hfv hop hacc hic hfc hoi
      have hi : i < nc := by omega
      have hone : processChannels rescale d (n + 1) s =
          processChannels rescale d n
            (PostProcess rescale (AdvanceFilterInput d s).acc
              { AdvanceFilterInput d s with
                  acc := 0,
                  trace := (AdvanceFilterInput d s).trace ++
                             [AccelEvent.macc] }) := rfl
      rw [hone, AdvanceFilterInput_eq d s, hic, hfc, hoi, hacc, hwin, hfv]
      dsimp only
      have hA : (0 : Int) + isum (16 * d) (fun k =>
          (tget s.inputWindow ((i * (16 * d) + k) % (16 * d)) + s.inputOffset) *
            tget s.filterVals
              ((p * (nc * (16 * d)) + i * (16 * d) + k) % (nc * (16 * d)))) =
          modelChannelAcc s.inputWindow s.filterVals s.inputOffset d i := by
        rw [zero_add, modelChannelAcc]
        apply isum_congr
        intro k hk
        have hidx1 : (i * (16 * d) + k) % (16 * d) = k := by
          rw [Nat.mul_comm i (16 * d), Nat.mul_add_mod]
          exact Nat.mod_eq_of_lt hk
        have hidx2 : (p * (nc * (16 * d)) + i * (16 * d) + k) % (nc * (16 * d)) =
            i * (16 * d) + k := by
          rw [Nat.add_assoc, Nat.mul_comm p (nc * (16 * d)), Nat.mul_add_mod]
          apply Nat.mod_eq_of_lt
          have hstep : (i + 1) * (16 * d) ≤ nc * (16 * d) :=
            Nat.mul_le_mul_right _ (by omega)
          have hexp : (i + 1) * (16 * d) = i * (16 * d) + 16 * d := by ring
          omega
        rw [hidx1, hidx2]
      simp only [PostProcess]
      rw [hA, hop]
      have hmod : (p * nc + i) % nc = i := by
        rw [Nat.mul_comm p nc, Nat.mul_add_mod]
        exact Nat.mod_eq_of_lt hi
      rw [hmod]
      rw [processChannels_core rescale d nc p n (i + 1)
        ⟨s.inputOffset, s.outputOffset, s.actMin, s.actMax, s.filterVals,
          p * (nc * (16 * d)) + i * (16 * d) + 16 * d,
          s.inputWindow, i * (16 * d) + 16 * d, 0, s.outParams, p * nc + i + 1,
          s.outQueue ++
            [postVal rescale s.outputOffset s.actMin s.actMax
              (s.outParams.getD i (0, 0, 0))
              (modelChannelAcc s.inputWindow s.filterVals s.inputOffset d i)],
          s.trace ++ List.replicate d AccelEvent.advance ++ [AccelEvent.macc] ++
            [AccelEvent.post]⟩
        (by omega) hwin hfv hop rfl
        (by show i * (16 * d) + 16 * d = (i + 1) * (16 * d); ring)
        (by show p * (nc * (16 * d)) + i * (16 * d) + 16 * d =
              p * (nc * (16 * d)) + (i + 1) * (16 * d)
            ring)
        (by show p * nc + i + 1 = p * nc + (i + 1); ring)]
      simp only [AccelCore.mk.injEq]
      and_intros <;> try trivial
      rw [List.append_assoc]
      congr 1
      rw [List.range_succ_eq_map, List.map_cons, List.map_map, List.singleton_append]
      congr 1
      apply List.map_congr_left
      intro j _
      simp only [Function.comp_apply]
      have he : i + 1 + j = i + (j + 1) := by omega
      rw [he]

theorem tileWrites_length (vals : Nat → List Int) (base stride : Nat) :
    ∀ (n : Nat) (buf : List Int),
      (tileWrites vals base stride n buf).length = buf.length
  | 0, buf => rfl
  | n + 1, buf => by
      rw [tileWrites, writeList_length, tileWrites_length vals base stride n]

theorem tget_tileWrites (nc base stride : Nat) (vals : Nat → List Int)
    (hlen : ∀ q, (vals q).length = nc) (hbs : base + nc ≤ stride) :
    ∀ (n : Nat) (buf : List Int) (q c : Nat),
      c < stride → q * stride + c < buf.length → n * stride ≤ buf.length →
      tget (tileWrites vals base stride n buf) (q * stride + c) =
        if base ≤ c ∧ c < base + nc ∧ q < n
        then tget (vals q) (c - base)
        else tget buf (q * stride + c)
  | 0, buf, q, c, hc, hpos, hn => by
      rw [tileWrites, if_neg (by omega)]
  | n + 1, buf, q, c, hc, hpos, hn => by
      rw [tileWrites]
      have hexp : (n + 1) * stride = n * stride + stride := by ring
      have hnle : n * stride ≤ buf.length := by omega
      by_cases hq : q < n
      · have h1 : (q + 1) * stride ≤ n * stride := Nat.mul_le_mul_right _ (by omega)
        have h2 : (q + 1) * stride = q * stride + stride := by ring
        rw [tget_writeList_lt (vals n) (tileWrites vals base stride n buf)
          (base + n * stride) (q * stride + c) (by omega)]
        rw [tget_tileWrites nc base stride vals hlen hbs n buf q c hc hpos hnle]
        by_cases hbc : base ≤ c ∧ c < base + nc
        · rw [if_pos ⟨hbc.1, hbc.2, hq⟩, if_pos ⟨hbc.1, hbc.2, by omega⟩]
        · rw [if_neg (by rw [not_and_or] at hbc ⊢; omega),
            if_neg (by rw [not_and_or] at hbc ⊢; omega)]
      · by_cases hqn : q = n
        · subst hqn
          by_cases hbc : base ≤ c ∧ c < base + nc
          · have hrw : q * stride + c = (base + q * stride) + (c - base) := by omega
            have hq2 : (q + 1) * stride ≤ buf.length := by omega
            have hq3 : (q + 1) * stride = q * stride + stride := by ring
            have hmid1 : c - base < (vals q).length := by rw [hlen]; omega
            have hmid2 : (base + q * stride) + (vals q).length ≤
                (tileWrites vals base stride q buf).length := by
              rw [hlen, tileWrites_length]
              omega
            rw [hrw, tget_writeList_mid (vals q) (tileWrites vals base stride q buf)
              (base + q * stride) (c - base) hmid1 hmid2]
            rw [if_pos ⟨hbc.1, hbc.2, by omega⟩]
          · by_cases hcb : c < base
            · rw [tget_writeList_lt (vals q) (tileWrites vals base stride q buf)
                (base + q * stride) (q * stride + c) (by omega)]
              rw [tget_tileWrites nc base stride vals hlen hbs q buf q c hc hpos hnle]
              rw [if_neg (by omega), if_neg (by omega)]
            · have hge : base + nc ≤ c := by
                rw [not_and_or] at hbc
                omega
              rw [tget_writeList_ge (vals q) (tileWrites vals base stride q buf)
                (base + q * stride) (q * stride + c) (by rw [hlen]; omega)]
              rw [tget_tileWrites nc base stride vals hlen hbs q buf q c hc hpos hnle]
              rw [if_neg (by omega), if_neg (by omega)]
        · have hq1 : n + 1 ≤ q := by omega
          have h1 : (n + 1) * stride ≤ q * stride := Nat.mul_le_mul_right _ hq1
          rw [tget_writeList_ge (vals n) (tileWrites vals base stride n buf)
            (base + n * stride) (q * stride + c) (by rw [hlen]; omega)]
          rw [tget_tileWrites nc base stride vals hlen hbs n buf q c hc hpos hnle]
          rw [if_neg (by omega), if_neg (by omega)]

theorem tilePixel_spec (ctx : ConvCtx) (nc p oy ox : Nat) (s : AccelState)
    (buf : List Int) (base : Nat)
    (hnc4 : nc % 4 = 0)
    (hfv : s.filterVals.length = nc * (16 * ctx.input_depth))
    (hop : s.outParams.length = nc)
    (hacc : s.acc = 0)
    (hq : s.outQueue = [])
    (hfc : s.filterCursor = p * (nc * (16 * ctx.input_depth)))
    (hoi : s.opIndex = p * nc) :
    (tilePixel ctx nc oy ox (s, buf, base)).1.core =
      ⟨s.inputOffset, s.outputOffset, s.actMin, s.actMax, s.filterVals,
        (p + 1) * (nc * (16 * ctx.input_depth)),
        pixelWindow ctx oy ox, nc * (16 * ctx.input_depth), 0, s.outParams,
        (p + 1) * nc, []⟩ ∧
    (tilePixel ctx nc oy ox (s, buf, base)).2.1 =
      writeList buf base ((List.range nc).map fun j =>
        postVal ctx.rescale s.outputOffset s.actMin s.actMax
          (s.outParams.getD j (0, 0, 0))
          (modelChannelAcc (pixelWindow ctx oy ox) s.filterVals s.inputOffset
            ctx.input_depth j)) ∧
    (tilePixel ctx nc oy ox (s, buf, base)).2.2 =
      base + ctx.output_depth / 4 * 4 := by
  have hits : 4 * 4 * ctx.input_depth / 16 = ctx.input_depth := by omega
  have h1 : (tilePixel ctx nc oy ox (s, buf, base)).1 =
      (drainLoop ((nc + 3) / 4)
        (processChannels ctx.rescale (4 * 4 * ctx.input_depth / 16) nc
          (LoadInput (ctx.input_shape.Dims 2) ctx.input_depth ctx.input_data
            (Offset ctx.input_shape 0 (oy * ctx.stride_height)
              (ox * ctx.stride_width) 0) s))
        buf base).1 := rfl
  have h2 : (tilePixel ctx nc oy ox (s, buf, base)).2.1 =
      (drainLoop ((nc + 3) / 4)
        (processChannels ctx.rescale (4 * 4 * ctx.input_depth / 16) nc
          (LoadInput (ctx.input_shape.Dims 2) ctx.input_depth ctx.input_data
            (Offset ctx.input_shape 0 (oy * ctx.stride_height)
              (ox * ctx.stride_width) 0) s))
        buf base).2 := rfl
  have h3 : (tilePixel ctx nc oy ox (s, buf, base)).2.2 =
      base + ctx.output_depth / 4 * 4 := rfl
  have hwinlen : (LoadInput (ctx.input_shape.Dims 2) ctx.input_depth ctx.input_data
      (Offset ctx.input_shape 0 (oy * ctx.stride_height) (ox * ctx.stride_width) 0)
      s).inputWindow.length = 16 * ctx.input_depth := by
    show ((List.range 4).flatMap fun fy => sliceL ctx.input_data
      (Offset ctx.input_shape 0 (oy * ctx.stride_height) (ox * ctx.stride_width) 0 +
        fy * (ctx.input_shape.Dims 2 * ctx.input_depth))
      (4 * ctx.input_depth)).length = 16 * ctx.input_depth
    rw [length_flatMap_uniform _ (4 * ctx.input_depth)
      (fun i => sliceL_length _ _ _) 4]
    ring
  have hpc := processChannels_core ctx.rescale ctx.input_depth nc p nc 0
    (LoadInput (ctx.input_shape.Dims 2) ctx.input_depth ctx.input_data
      (Offset ctx.input_shape 0 (oy * ctx.stride_height) (ox * ctx.stride_width) 0) s)
    (by omega) hwinlen hfv hop hacc
    (by show (0 : Nat) = 0 * (16 * ctx.input_depth); rw [Nat.zero_mul])
    (by show s.filterCursor = p * (nc * (16 * ctx.input_depth)) +
          0 * (16 * ctx.input_depth)
        rw [hfc, Nat.zero_mul, Nat.add_zero])
    (by show s.opIndex = p * nc + 0; rw [hoi, Nat.add_zero])
  have hqv : (processChannels ctx.rescale ctx.input_depth nc
      (LoadInput (ctx.input_shape.Dims 2) ctx.input_depth ctx.input_data
        (Offset ctx.input_shape 0 (oy * ctx.stride_height) (ox * ctx.stride_width) 0)
        s)).outQueue =
      (LoadInput (ctx.input_shape.Dims 2) ctx.input_depth ctx.input_data
        (Offset ctx.input_shape 0 (oy * ctx.stride_height) (ox * ctx.stride_width) 0)
        s).outQueue ++ (List.range nc).map (fun j =>
          postVal ctx.rescale s.outputOffset s.actMin s.actMax
            (s.outParams.getD (0 + j) (0, 0, 0))
            (modelChannelAcc (LoadInput (ctx.input_shape.Dims 2) ctx.input_depth
                ctx.input_data (Offset ctx.input_shape 0 (oy * ctx.stride_height)
                  (ox * ctx.stride_width) 0) s).inputWindow
              s.filterVals s.inputOffset ctx.input_depth (0 + j))) :=
    congrArg AccelCore.outQueue hpc
  have hql : (processChannels ctx.rescale ctx.input_depth nc
      (LoadInput (ctx.input_shape.Dims 2) ctx.input_depth ctx.input_data
        (Offset ctx.input_shape 0 (oy * ctx.stride_height) (ox * ctx.stride_width) 0)
        s)).outQueue.length = 4 * ((nc + 3) / 4) := by
    rw [hqv]
    have hqnil : (LoadInput (ctx.input_shape.Dims 2) ctx.input_depth ctx.input_data
        (Offset ctx.input_shape 0 (oy * ctx.stride_height) (ox * ctx.stride_width) 0)
        s).outQueue = [] := hq
    rw [hqnil]
    simp only [List.nil_append, List.length_map, List.length_range]
    omega
  have hdl := drainLoop_spec ((nc + 3) / 4)
    (processChannels ctx.rescale ctx.input_depth nc
      (LoadInput (ctx.input_shape.Dims 2) ctx.input_depth ctx.input_data
        (Offset ctx.input_shape 0 (oy * ctx.stride_height) (ox * ctx.stride_width) 0)
        s)) buf base hql
  refine ⟨?_, ?_, h3⟩
  · rw [h1, hits, hdl.1, hpc]
    simp only [AccelCore.mk.injEq]
    and_intros <;> first | rfl | ring
  · rw [h2, hits, hdl.2, hqv]
    have hqnil : (LoadInput (ctx.input_shape.Dims 2) ctx.input_depth ctx.input_data
        (Offset ctx.input_shape 0 (oy * ctx.stride_height) (ox * ctx.stride_width) 0)
        s).outQueue = [] := hq
    rw [hqnil]
    simp only [List.nil_append, Nat.zero_add]
    rfl

theorem pixelFold_spec (ctx : ConvCtx) (nc W : Nat) (s0 : AccelState)
    (buf0 : List Int) (base0 : Nat)
    (hnc4 : nc % 4 = 0)
    (hfvlen : s0.filterVals.length = nc * (16 * ctx.input_depth))
    (hoplen : s0.outParams.length = nc)
    (hacc : s0.acc = 0)
    (hq : s0.outQueue = [])
    (hfc : s0.filterCursor = 0)
    (hoi : s0.opIndex = 0) :
    ∀ n : Nat, ∃ win : List Int, ∃ cur : Nat,
      ((List.range n).foldl (fun b q => tilePixel ctx nc (q / W) (q % W) b)
          (s0, buf0, base0)).1.core =
        ⟨s0.inputOffset, s0.outputOffset, s0.actMin, s0.actMax, s0.filterVals,
          n * (nc * (16 * ctx.input_depth)), win, cur, 0, s0.outParams,
          n * nc, []⟩ ∧
      ((List.range n).foldl (fun b q => tilePixel ctx nc (q / W) (q % W) b)
          (s0, buf0, base0)).2.1 =
        tileWrites (fun q => (List.range nc).map fun j =>
            postVal ctx.rescale s0.outputOffset s0.actMin s0.actMax
              (s0.outParams.getD j (0, 0, 0))
              (modelChannelAcc (pixelWindow ctx (q / W) (q % W)) s0.filterVals
                s0.inputOffset ctx.input_depth j))
          base0 (ctx.output_depth / 4 * 4) n buf0 ∧
      ((List.range n).foldl (fun b q => tilePixel ctx nc (q / W) (q % W) b)
          (s0, buf0, base0)).2.2 = base0 + n * (ctx.output_depth / 4 * 4) := by
  intro n
  induction n with
  | zero =>
      refine ⟨s0.inputWindow, s0.inputCursor, ?_, rfl, by simp⟩
      simp only [List.range_zero, List.foldl_nil, AccelState.core, AccelCore.mk.injEq,
        Nat.zero_mul]
      and_intros <;> first | trivial | exact hfc | exact hoi | exact hacc | exact hq
  | succ n ih =>
      obtain ⟨win, cur, hcore, hbuf, hbase⟩ := ih
      rw [List.range_succ]
      simp only [List.foldl_append, List.foldl_cons, List.foldl_nil]
      set X := (List.range n).foldl (fun b q => tilePixel ctx nc (q / W) (q % W) b)
        (s0, buf0, base0) with hX
      clear_value X
      obtain ⟨s1, buf1, base1⟩ := X
      simp only at hcore hbuf hbase
      have e_io : s1.inputOffset = s0.inputOffset := congrArg AccelCore.inputOffset hcore
      have e_oo : s1.outputOffset = s0.outputOffset :=
        congrArg AccelCore.outputOffset hcore
      have e_mn : s1.actMin = s0.actMin := congrArg AccelCore.actMin hcore
      have e_mx : s1.actMax = s0.actMax := congrArg AccelCore.actMax hcore
      have e_fv : s1.filterVals = s0.filterVals := congrArg AccelCore.filterVals hcore
      have e_fc : s1.filterCursor = n * (nc * (16 * ctx.input_depth)) :=
        congrArg AccelCore.filterCursor hcore
      have e_acc : s1.acc = 0 := congrArg AccelCore.acc hcore
      have e_op : s1.outParams = s0.outParams := congrArg AccelCore.outParams hcore
      have e_oi : s1.opIndex = n * nc := congrArg AccelCore.opIndex hcore
      have e_q : s1.outQueue = [] := congrArg AccelCore.outQueue hcore
      have hps := tilePixel_spec ctx nc n (n / W) (n % W) s1 buf1 base1 hnc4
        (by rw [e_fv]; exact hfvlen) (by rw [e_op]; exact hoplen) e_acc e_q e_fc e_oi
      refine ⟨pixelWindow ctx (n / W) (n % W), nc * (16 * ctx.input_depth),
        ?_, ?_, ?_⟩
      · rw [hps.1]
        simp only [AccelCore.mk.injEq]
        and_intros <;>
          first | trivial | exact e_io | exact e_oo | exact e_mn | exact e_mx |
            exact e_fv | exact e_op
      · rw [hps.2.1, hbuf, hbase, tileWrites]
        rw [e_oo, e_mn, e_mx, e_op, e_fv, e_io]
      · rw [hps.2.2, hbase]
        ring

theorem processTile_spec (ctx : ConvCtx) (off nc : Nat) (s : AccelState)
    (buf : List Int)
    (hnc4 : nc % 4 = 0)
    (hacc : s.acc = 0) (hq : s.outQueue = []) :
    ∃ win : List Int, ∃ cur : Nat,
      (processTile ctx off nc s buf).1.core =
        ⟨s.inputOffset, s.outputOffset, s.actMin, s.actMax,
          sliceL ctx.filter_data (Offset ctx.filter_shape off 0 0 0)
            (nc * (4 * (4 * ctx.input_depth))),
          ctx.output_shape.Dims 1 * ctx.output_shape.Dims 2 *
            (nc * (16 * ctx.input_depth)),
          win, cur, 0,
          (List.range nc).map (fun j => (tget ctx.bias_data (off + j),
            tget ctx.output_multiplier (off + j), tget ctx.output_shift (off + j))),
          ctx.output_shape.Dims 1 * ctx.output_shape.Dims 2 * nc, []⟩ ∧
      (processTile ctx off nc s buf).2 =
        tileWrites (fun q => (List.range nc).map fun j =>
            postVal ctx.rescale s.outputOffset s.actMin s.actMax
              (((List.range nc).map (fun j2 => (tget ctx.bias_data (off + j2),
                tget ctx.output_multiplier (off + j2),
                tget ctx.output_shift (off + j2)))).getD j (0, 0, 0))
              (modelChannelAcc
                (pixelWindow ctx (q / ctx.output_shape.Dims 2)
                  (q % ctx.output_shape.Dims 2))
                (sliceL ctx.filter_data (Offset ctx.filter_shape off 0 0 0)
                  (nc * (4 * (4 * ctx.input_depth))))
                s.inputOffset ctx.input_depth j))
          (Offset ctx.output_shape 0 0 0 off) (ctx.output_depth / 4 * 4)
          (ctx.output_shape.Dims 1 * ctx.output_shape.Dims 2) buf := by
  have hbody : ∀ (a : AccelState × List Int × Nat) (oy ox : Nat),
      ox < ctx.output_shape.Dims 2 →
      tilePixel ctx nc oy ox a =
        tilePixel ctx nc ((oy * ctx.output_shape.Dims 2 + ox) / ctx.output_shape.Dims 2)
          ((oy * ctx.output_shape.Dims 2 + ox) % ctx.output_shape.Dims 2) a := by
    intro a oy ox hox
    have hW : 0 < ctx.output_shape.Dims 2 := by omega
    have hdiv : (oy * ctx.output_shape.Dims 2 + ox) / ctx.output_shape.Dims 2 = oy := by
      rw [Nat.mul_comm oy (ctx.output_shape.Dims 2), Nat.mul_add_div hW,
        Nat.div_eq_of_lt hox, Nat.add_zero]
    have hmod : (oy * ctx.output_shape.Dims 2 + ox) % ctx.output_shape.Dims 2 = ox := by
      rw [Nat.mul_comm oy (ctx.output_shape.Dims 2), Nat.mul_add_mod]
      exact Nat.mod_eq_of_lt hox
    rw [hdiv, hmod]
  have hfold := pixelFold_spec ctx nc (ctx.output_shape.Dims 2)
    (LoadOutputParams off nc ctx.bias_data ctx.output_multiplier ctx.output_shift
      (LoadFilter ctx.input_depth nc ctx.filter_data
        (Offset ctx.filter_shape off 0 0 0) s))
    buf (Offset ctx.output_shape 0 0 0 off) hnc4
    (by show (sliceL ctx.filter_data (Offset ctx.filter_shape off 0 0 0)
          (nc * (4 * (4 * ctx.input_depth)))).length = nc * (16 * ctx.input_depth)
        rw [sliceL_length]
        ring)
    (by show ((List.range nc).map _).length = nc
        rw [List.length_map, List.length_range])
    hacc hq rfl rfl
    (ctx.output_shape.Dims 1 * ctx.output_shape.Dims 2)
  obtain ⟨win, cur, hcore, hbuf, _⟩ := hfold
  have hflat := foldl_nested_range (ctx.output_shape.Dims 2)
    (fun b oy ox => tilePixel ctx nc oy ox b)
    (fun b q => tilePixel ctx nc (q / ctx.output_shape.Dims 2)
      (q % ctx.output_shape.Dims 2) b)
    hbody (ctx.output_shape.Dims 1)
    (LoadOutputParams off nc ctx.bias_data ctx.output_multiplier ctx.output_shift
      (LoadFilter ctx.input_depth nc ctx.filter_data
        (Offset ctx.filter_shape off 0 0 0) s),
      buf, Offset ctx.output_shape 0 0 0 off)
  refine ⟨win, cur, ?_, ?_⟩
  · show ((ctx.output_shape.Dims 1 |> List.range).foldl
        (fun a oy => (List.range (ctx.output_shape.Dims 2)).foldl
          (fun b ox => tilePixel ctx nc oy ox b) a)
        (LoadOutputParams off nc ctx.bias_data ctx.output_multiplier ctx.output_shift
          (LoadFilter ctx.input_depth nc ctx.filter_data
            (Offset ctx.filter_shape off 0 0 0) s),
          buf, Offset ctx.output_shape 0 0 0 off)).1.core = _
    rw [hflat, hcore]
    rfl
  · show ((ctx.output_shape.Dims 1 |> List.range).foldl
        (fun a oy => (List.range (ctx.output_shape.Dims 2)).foldl
          (fun b ox => tilePixel ctx nc oy ox b) a)
        (LoadOutputParams off nc ctx.bias_data ctx.output_multiplier ctx.output_shift
          (LoadFilter ctx.input_depth nc ctx.filter_data
            (Offset ctx.filter_shape off 0 0 0) s),
          buf, Offset ctx.output_shape 0 0 0 off)).2.1 = _
    rw [hflat, hbuf]
    rfl

theorem tget_pixelWindow (ctx : ConvCtx) (oy ox fy r : Nat) (hfy : fy < 4)
    (hr : r < 4 * ctx.input_depth) :
    tget (pixelWindow ctx oy ox) (fy * (4 * ctx.input_depth) + r) =
      tget ctx.input_data
        (Offset ctx.input_shape 0 (oy * ctx.stride_height) (ox * ctx.stride_width) 0 +
          fy * (RuntimeShape.Dims ctx.input_shape 2 * ctx.input_depth) + r) := by
  rw [pixelWindow]
  rw [tget_flatMap_uniform _ (4 * ctx.input_depth) (fun i => sliceL_length _ _ _)
    4 fy r hfy hr]
  rw [tget_sliceL _ _ _ _ hr]

theorem channelVal_eq_refVal (ctx : ConvCtx) (params : ConvParams)
    (off nc j oy ox : Nat)
    (hj : j < nc)
    (hd : ctx.input_depth = RuntimeShape.d3 ctx.input_shape)
    (hsh : ctx.stride_height = params.stride_height)
    (hsw : ctx.stride_width = params.stride_width)
    (hf1 : RuntimeShape.d1 ctx.filter_shape = 4)
    (hf2 : RuntimeShape.d2 ctx.filter_shape = 4)
    (hf3 : RuntimeShape.d3 ctx.filter_shape = ctx.input_depth) :
    postVal ctx.rescale params.output_offset params.quantized_activation_min
      params.quantized_activation_max
      (((List.range nc).map (fun j2 => (tget ctx.bias_data (off + j2),
        tget ctx.output_multiplier (off + j2),
        tget ctx.output_shift (off + j2)))).getD j (0, 0, 0))
      (modelChannelAcc (pixelWindow ctx oy ox)
        (sliceL ctx.filter_data (Offset ctx.filter_shape off 0 0 0)
          (nc * (4 * (4 * ctx.input_depth))))
        params.input_offset ctx.input_depth j) =
    refVal ctx.rescale params ctx.output_multiplier ctx.output_shift ctx.bias_data
      ctx.input_shape ctx.input_data ctx.filter_shape ctx.filter_data oy ox
      (off + j) := by
  rw [getD_map_range _ _ nc j hj]
  rw [postVal, refVal]
  have hAcc : modelChannelAcc (pixelWindow ctx oy ox)
      (sliceL ctx.filter_data (Offset ctx.filter_shape off 0 0 0)
        (nc * (4 * (4 * ctx.input_depth))))
      params.input_offset ctx.input_depth j =
      refAcc params ctx.input_shape ctx.input_data ctx.filter_shape ctx.filter_data
        oy ox (off + j) := by
    rw [modelChannelAcc, refAcc, MatchingDim, RuntimeShape.Dims_one,
      RuntimeShape.Dims_two, RuntimeShape.Dims_three, hf1, hf2, ← hd]
    have hsplit : 16 * ctx.input_depth = 4 * (4 * ctx.input_depth) := by ring
    rw [hsplit, isum_mul 4 (4 * ctx.input_depth)]
    apply isum_congr
    intro fy hfy
    rw [isum_mul 4 ctx.input_depth]
    apply isum_congr
    intro fx hfx
    apply isum_congr
    intro c hc
    have hr : fx * ctx.input_depth + c < 4 * ctx.input_depth := by
      have h1 : (fx + 1) * ctx.input_depth ≤ 4 * ctx.input_depth :=
        Nat.mul_le_mul_right _ (by omega)
      have h2 : (fx + 1) * ctx.input_depth = fx * ctx.input_depth + ctx.input_depth :=
        by ring
      omega
    rw [tget_pixelWindow ctx oy ox fy (fx * ctx.input_depth + c) hfy hr]
    have hidxf : j * (4 * (4 * ctx.input_depth)) +
        (fy * (4 * ctx.input_depth) + (fx * ctx.input_depth + c)) <
        nc * (4 * (4 * ctx.input_depth)) := by
      have h1 : (j + 1) * (4 * (4 * ctx.input_depth)) ≤
          nc * (4 * (4 * ctx.input_depth)) := Nat.mul_le_mul_right _ (by omega)
      have h2 : (j + 1) * (4 * (4 * ctx.input_depth)) =
          j * (4 * (4 * ctx.input_depth)) + 4 * (4 * ctx.input_depth) := by ring
      have h3 : (fy + 1) * (4 * ctx.input_depth) ≤ 4 * (4 * ctx.input_depth) :=
        Nat.mul_le_mul_right _ (by omega)
      have h4 : (fy + 1) * (4 * ctx.input_depth) =
          fy * (4 * ctx.input_depth) + 4 * ctx.input_depth := by ring
      omega
    rw [tget_sliceL _ _ _ _ hidxf]
    have hE1 : Offset ctx.input_shape 0 (oy * ctx.stride_height)
        (ox * ctx.stride_width) 0 +
        fy * (RuntimeShape.Dims ctx.input_shape 2 * ctx.input_depth) +
        (fx * ctx.input_depth + c) =
        Offset ctx.input_shape 0 (oy * params.stride_height + fy)
          (ox * params.stride_width + fx) c := by
      rw [RuntimeShape.Dims_two, Offset, Offset, hd, hsh, hsw]
      ring
    have hE2 : Offset ctx.filter_shape off 0 0 0 +
        (j * (4 * (4 * ctx.input_depth)) +
          (fy * (4 * ctx.input_depth) + (fx * ctx.input_depth + c))) =
        Offset ctx.filter_shape (off + j) fy fx c := by
      rw [Offset, Offset, hf1, hf2, hf3]
      ring
    rw [hE1, hE2]
  rw [hAcc]

theorem convOuterLoop_ref (ctx : ConvCtx) (params : ConvParams)
    (hd : ctx.input_depth = RuntimeShape.d3 ctx.input_shape)
    (hsh : ctx.stride_height = params.stride_height)
    (hsw : ctx.stride_width = params.stride_width)
    (hf1 : RuntimeShape.d1 ctx.filter_shape = 4)
    (hf2 : RuntimeShape.d2 ctx.filter_shape = 4)
    (hf3 : RuntimeShape.d3 ctx.filter_shape = ctx.input_depth)
    (hD4 : ctx.output_depth % 4 = 0)
    (hL4 : ctx.max_load % 4 = 0) :
    ∀ (fuel off : Nat) (s : AccelState) (buf : List Int),
      off % 4 = 0 →
      ctx.output_depth - off ≤ fuel * ctx.max_load →
      s.acc = 0 → s.outQueue = [] →
      s.inputOffset = params.input_offset →
      s.outputOffset = params.output_offset →
      s.actMin = params.quantized_activation_min →
      s.actMax = params.quantized_activation_max →
      buf.length = ctx.output_shape.Dims 1 * ctx.output_shape.Dims 2 *
        ctx.output_depth →
      ∃ final : List Int,
        convOuterLoop ctx fuel off s buf = some final ∧
        final.length = buf.length ∧
        ∀ q c : Nat, q < ctx.output_shape.Dims 1 * ctx.output_shape.Dims 2 →
          c < ctx.output_depth →
          tget final (q * ctx.output_depth + c) =
            if c < off then tget buf (q * ctx.output_depth + c)
            else refVal ctx.rescale params ctx.output_multiplier ctx.output_shift
              ctx.bias_data ctx.input_shape ctx.input_data ctx.filter_shape
              ctx.filter_data (q / ctx.output_shape.Dims 2)
              (q % ctx.output_shape.Dims 2) c
  | 0, off, s, buf, hoff4, hcap, hacc, hq, hio, hoo, hmn, hmx, hblen => by
      refine ⟨buf, ?_, rfl, ?_⟩
      · rw [convOuterLoop, if_neg (by omega)]
      · intro q c hqb hcb
        rw [if_pos (by omega)]
  | fuel + 1, off, s, buf, hoff4, hcap, hacc, hq, hio, hoo, hmn, hmx, hblen => by
      by_cases hoff : off < ctx.output_depth
      · have hexp : (fuel + 1) * ctx.max_load = fuel * ctx.max_load + ctx.max_load :=
          by ring
        have hnc4 : min (ctx.output_depth - off) ctx.max_load % 4 = 0 := by omega
        have hstep : convOuterLoop ctx (fuel + 1) off s buf =
            convOuterLoop ctx fuel (off + ctx.max_load)
              (processTile ctx off (min (ctx.output_depth - off) ctx.max_load)
                s buf).1
              (processTile ctx off (min (ctx.output_depth - off) ctx.max_load)
                s buf).2 := by
          rw [convOuterLoop, if_pos hoff]
        obtain ⟨win, cur, hcore, hbuf⟩ := processTile_spec ctx off
          (min (ctx.output_depth - off) ctx.max_load) s buf hnc4 hacc hq
        have e_acc : (processTile ctx off
            (min (ctx.output_depth - off) ctx.max_load) s buf).1.acc = 0 :=
          congrArg AccelCore.acc hcore
        have e_q : (processTile ctx off
            (min (ctx.output_depth - off) ctx.max_load) s buf).1.outQueue = [] :=
          congrArg AccelCore.outQueue hcore
        have e_io : (processTile ctx off
            (min (ctx.output_depth - off) ctx.max_load) s buf).1.inputOffset =
            s.inputOffset := congrArg AccelCore.inputOffset hcore
        have e_oo : (processTile ctx off
            (min (ctx.output_depth - off) ctx.max_load) s buf).1.outputOffset =
            s.outputOffset := congrArg AccelCore.outputOffset hcore
        have e_mn : (processTile ctx off
            (min (ctx.output_depth - off) ctx.max_load) s buf).1.actMin =
            s.actMin := congrArg AccelCore.actMin hcore
        have e_mx : (processTile ctx off
            (min (ctx.output_depth - off) ctx.max_load) s buf).1.actMax =
            s.actMax := congrArg AccelCore.actMax hcore
        have hr2len : (processTile ctx off
            (min (ctx.output_depth - off) ctx.max_load) s buf).2.length =
            buf.length := by
          rw [hbuf, tileWrites_length]
        obtain ⟨final, heq, hflen, hchar⟩ := convOuterLoop_ref ctx params hd hsh hsw
          hf1 hf2 hf3 hD4 hL4 fuel (off + ctx.max_load)
          (processTile ctx off (min (ctx.output_depth - off) ctx.max_load) s buf).1
          (processTile ctx off (min (ctx.output_depth - off) ctx.max_load) s buf).2
          (by omega) (by omega) e_acc e_q (by rw [e_io]; exact hio)
          (by rw [e_oo]; exact hoo) (by rw [e_mn]; exact hmn)
          (by rw [e_mx]; exact hmx) (by rw [hr2len]; exact hblen)
        refine ⟨final, by rw [hstep]; exact heq, by rw [hflen, hr2len], ?_⟩
        intro q c hqb hcb
        rw [hchar q c hqb hcb]
        have hbase : Offset ctx.output_shape 0 0 0 off = off := by
          rw [Offset]; ring
        have hstride : ctx.output_depth / 4 * 4 = ctx.output_depth := by omega
        have hwrt := tget_tileWrites (min (ctx.output_depth - off) ctx.max_load) off
          (ctx.output_depth)
          (fun qq => (List.range (min (ctx.output_depth - off) ctx.max_load)).map
            fun j => postVal ctx.rescale s.outputOffset s.actMin s.actMax
              (((List.range (min (ctx.output_depth - off) ctx.max_load)).map
                (fun j2 => (tget ctx.bias_data (off + j2),
                  tget ctx.output_multiplier (off + j2),
                  tget ctx.output_shift (off + j2)))).getD j (0, 0, 0))
              (modelChannelAcc
                (pixelWindow ctx (qq / ctx.output_shape.Dims 2)
                  (qq % ctx.output_shape.Dims 2))
                (sliceL ctx.filter_data (Offset ctx.filter_shape off 0 0 0)
                  (min (ctx.output_depth - off) ctx.max_load *
                    (4 * (4 * ctx.input_depth))))
                s.inputOffset ctx.input_depth j))
          (by intro qq; rw [List.length_map, List.length_range])
          (by omega)
          (ctx.output_shape.Dims 1 * ctx.output_shape.Dims 2) buf q c hcb
          (by have h1 : (q + 1) * ctx.output_depth ≤
                ctx.output_shape.Dims 1 * ctx.output_shape.Dims 2 *
                  ctx.output_depth := Nat.mul_le_mul_right _ (by omega)
              have h2 : (q + 1) * ctx.output_depth =
                q * ctx.output_depth + ctx.output_depth := by ring
              omega)
          (by omega)
        have hbufc : tget (processTile ctx off
            (min (ctx.output_depth - off) ctx.max_load) s buf).2
            (q * ctx.output_depth + c) =
            if off ≤ c ∧ c < off + min (ctx.output_depth - off) ctx.max_load ∧
              q < ctx.output_shape.Dims 1 * ctx.output_shape.Dims 2
            then tget ((List.range (min (ctx.output_depth - off) ctx.max_load)).map
              fun j => postVal ctx.rescale s.outputOffset s.actMin s.actMax
                (((List.range (min (ctx.output_depth - off) ctx.max_load)).map
                  (fun j2 => (tget ctx.bias_data (off + j2),
                    tget ctx.output_multiplier (off + j2),
                    tget ctx.output_shift (off + j2)))).getD j (0, 0, 0))
                (modelChannelAcc
                  (pixelWindow ctx (q / ctx.output_shape.Dims 2)
                    (q % ctx.output_shape.Dims 2))
                  (sliceL ctx.filter_data (Offset ctx.filter_shape off 0 0 0)
                    (min (ctx.output_depth - off) ctx.max_load *
                      (4 * (4 * ctx.input_depth))))
                  s.inputOffset ctx.input_depth j)) (c - off)
            else tget buf (q * ctx.output_depth + c) := by
          rw [hbuf, hbase, hstride]
          exact hwrt
        by_cases hco : c < off
        · rw [if_pos (show c < off + ctx.max_load by omega), hbufc,
            if_neg (by omega), if_pos hco]
        · by_cases hcn : c < off + min (ctx.output_depth - off) ctx.max_load
          · rw [if_pos (show c < off + ctx.max_load by omega), hbufc,
              if_pos ⟨by omega, hcn, hqb⟩, if_neg (show ¬ c < off by omega)]
            rw [tget_map_range _ _ (c - off) (by omega)]
            have hcv := channelVal_eq_refVal ctx params off
              (min (ctx.output_depth - off) ctx.max_load) (c - off)
              (q / ctx.output_shape.Dims 2) (q % ctx.output_shape.Dims 2)
              (by omega) hd hsh hsw hf1 hf2 hf3
            rw [hio, hoo, hmn, hmx, hcv]
            have hoc : off + (c - off) = c := by omega
            rw [hoc]
          · rw [if_neg (show ¬ c < off + ctx.max_load by omega),
              if_neg (show ¬ c < off by omega)]
      · refine ⟨buf, ?_, rfl, ?_⟩
        · rw [convOuterLoop, if_neg hoff]
        · intro q c hqb hcb
          rw [if_pos (by omega)]

theorem referenceConv_length (rescale : Int → Int → Int → Int) (params : ConvParams)
    (output_multiplier output_shift : List Int) (input_shape : RuntimeShape)
    (input_data : List Int) (filter_shape : RuntimeShape) (filter_data : List Int)
    (bias_data : List Int) (output_shape : RuntimeShape) :
    (referenceConv rescale params output_multiplier output_shift input_shape
      input_data filter_shape filter_data bias_data output_shape).length =
    output_shape.Dims 1 * output_shape.Dims 2 * output_shape.Dims 3 := by
  rw [referenceConv]
  rw [length_flatMap_uniform _ (output_shape.Dims 2 * output_shape.Dims 3)
    (fun oy => by
      rw [length_flatMap_uniform _ (output_shape.Dims 3)
        (fun ox => by rw [List.length_map, List.length_range])])]
  ring

theorem tget_referenceConv (rescale : Int → Int → Int → Int) (params : ConvParams)
    (output_multiplier output_shift : List Int) (input_shape : RuntimeShape)
    (input_data : List Int) (filter_shape : RuntimeShape) (filter_data : List Int)
    (bias_data : List Int) (output_shape : RuntimeShape) (q c : Nat)
    (hq : q < output_shape.Dims 1 * output_shape.Dims 2)
    (hc : c < output_shape.Dims 3)
    (hW : 0 < output_shape.Dims 2) :
    tget (referenceConv rescale params output_multiplier output_shift input_shape
        input_data filter_shape filter_data bias_data output_shape)
      (q * output_shape.Dims 3 + c) =
    refVal rescale params output_multiplier output_shift bias_data input_shape
      input_data filter_shape filter_data (q / output_shape.Dims 2)
      (q % output_shape.Dims 2) c := by
  rw [referenceConv]
  have hdm := Nat.div_add_mod q (output_shape.Dims 2)
  have hidx : q * output_shape.Dims 3 + c =
      (q / output_shape.Dims 2) * (output_shape.Dims 2 * output_shape.Dims 3) +
        ((q % output_shape.Dims 2) * output_shape.Dims 3 + c) := by
    calc q * output_shape.Dims 3 + c
        = (output_shape.Dims 2 * (q / output_shape.Dims 2) + q % output_shape.Dims 2) *
            output_shape.Dims 3 + c := by rw [hdm]
      _ = (q / output_shape.Dims 2) * (output_shape.Dims 2 * output_shape.Dims 3) +
            ((q % output_shape.Dims 2) * output_shape.Dims 3 + c) := by ring
  rw [hidx]
  have hql : q / output_shape.Dims 2 < output_shape.Dims 1 :=
    (Nat.div_lt_iff_lt_mul hW).mpr (by
      have := hq
      calc q < output_shape.Dims 1 * output_shape.Dims 2 := hq
        _ = output_shape.Dims 1 * output_shape.Dims 2 := rfl)
  have hrl : (q % output_shape.Dims 2) * output_shape.Dims 3 + c <
      output_shape.Dims 2 * output_shape.Dims 3 := by
    have hm : q % output_shape.Dims 2 < output_shape.Dims 2 := Nat.mod_lt _ hW
    have h1 : (q % output_shape.Dims 2 + 1) * output_shape.Dims 3 ≤
        output_shape.Dims 2 * output_shape.Dims 3 :=
      Nat.mul_le_mul_right _ (by omega)
    have h2 : (q % output_shape.Dims 2 + 1) * output_shape.Dims 3 =
        (q % output_shape.Dims 2) * output_shape.Dims 3 + output_shape.Dims 3 := by
      ring
    omega
  rw [tget_flatMap_uniform _ (output_shape.Dims 2 * output_shape.Dims 3)
    (fun oy => by
      rw [length_flatMap_uniform _ (output_shape.Dims 3)
        (fun ox => by rw [List.length_map, List.length_range])])
    _ _ _ hql hrl]
  rw [tget_flatMap_uniform _ (output_shape.Dims 3)
    (fun ox => by rw [List.length_map, List.length_range])
    _ _ _ (Nat.mod_lt _ hW) hc]
  rw [tget_map_range _ _ c hc]

/-- C1 (amended): for every eligible call whose shapes are mutually consistent
(`MatchingDim` contract), whose input depth is positive and fits the
accelerator's filter memory (`16 * input_depth <= MAX_FILTER_WORDS`), and
whose output depth is a multiple of 4, `ConvPerChannel4x4` terminates and its
output buffer equals, element for element, the output of the reference
per-channel convolution kernel, for every rescale formula shared by the
accelerator's post-processing stage and the reference. -/
theorem convPerChannel4x4_matches_reference
    (maxFilterWords fuel : Nat) (rescale : Int → Int → Int → Int)
    (params : ConvParams) (output_multiplier output_shift : List Int)
    (input_shape : RuntimeShape) (input_data : List Int)
    (filter_shape : RuntimeShape) (filter_data : List Int)
    (bias_shape : RuntimeShape) (bias_data : List Int)
    (output_shape : RuntimeShape) (output_data : List Int)
    (helig : CanAccelerateConv4x4 params input_shape filter_shape output_shape
      (some bias_data) = true)
    (hfd3 : filter_shape.d3 = input_shape.d3)
    (hfd0 : filter_shape.d0 = output_shape.d3)
    (hdpos : 0 < input_shape.d3)
    (hcap : 16 * input_shape.d3 ≤ maxFilterWords)
    (hD4 : output_shape.d3 % 4 = 0)
    (hbuf : output_data.length =
      output_shape.d1 * output_shape.d2 * output_shape.d3)
    (hfuel : output_shape.d3 ≤ fuel) :
    ConvPerChannel4x4 maxFilterWords rescale fuel params output_multiplier
      output_shift input_shape input_data filter_shape filter_data bias_shape
      bias_data output_shape output_data =
    some (referenceConv rescale params output_multiplier output_shift input_shape
      input_data filter_shape filter_data bias_data output_shape) := by
  rw [canAccelerateConv4x4_iff] at helig
  obtain ⟨hpad, hdepth, hfw, hfh, hdw, hdh, hbatch, _⟩ := helig
  have hfwords : filterWordsPerOutputChannel input_shape.d3 = 4 * input_shape.d3 := by
    rw [filterWordsPerOutputChannel]; omega
  have h4d : 0 < 4 * input_shape.d3 := by omega
  have h4le : 4 ≤ maxFilterWords / (4 * input_shape.d3) :=
    (Nat.le_div_iff_mul_le h4d).mpr (by omega)
  have hLdef : maxOutputChannelsPerLoad maxFilterWords input_shape.d3 =
      maxFilterWords / (4 * input_shape.d3) / 4 * 4 := by
    rw [maxOutputChannelsPerLoad, hfwords]
  have hL4 : maxOutputChannelsPerLoad maxFilterWords input_shape.d3 % 4 = 0 := by
    rw [hLdef]; omega
  have hLpos : 0 < maxOutputChannelsPerLoad maxFilterWords input_shape.d3 := by
    rw [hLdef]; omega
  obtain ⟨final, heq, hflen, hchar⟩ :=
    convOuterLoop_ref
      { rescale := rescale,
        input_shape := input_shape, input_data := input_data,
        filter_shape := filter_shape, filter_data := filter_data,
        bias_data := bias_data,
        output_multiplier := output_multiplier, output_shift := output_shift,
        output_shape := output_shape,
        stride_width := params.stride_width, stride_height := params.stride_height,
        input_depth := MatchingDim input_shape 3 filter_shape 3,
        output_depth := MatchingDim filter_shape 0 output_shape 3,
        max_load := maxOutputChannelsPerLoad maxFilterWords
          (MatchingDim input_shape 3 filter_shape 3) }
      params rfl rfl rfl hfh hfw hfd3
      (show filter_shape.d0 % 4 = 0 by omega)
      hL4
      fuel 0
      (SetOutputOffsets params.output_offset params.quantized_activation_min
        params.quantized_activation_max
        (LoadInputOffset params.input_offset initAccelState))
      output_data
      (Nat.zero_mod 4)
      (by show filter_shape.d0 - 0 ≤ fuel * maxOutputChannelsPerLoad maxFilterWords
            input_shape.d3
          have hmul : fuel * 1 ≤ fuel * maxOutputChannelsPerLoad maxFilterWords
            input_shape.d3 := Nat.mul_le_mul_left fuel hLpos
          omega)
      rfl rfl rfl rfl rfl rfl
      (by show output_data.length = output_shape.d1 * output_shape.d2 *
            filter_shape.d0
          rw [hfd0]
          exact hbuf)
  rw [show ConvPerChannel4x4 maxFilterWords rescale fuel params output_multiplier
      output_shift input_shape input_data filter_shape filter_data bias_shape
      bias_data output_shape output_data =
      convOuterLoop
        { rescale := rescale,
          input_shape := input_shape, input_data := input_data,
          filter_shape := filter_shape, filter_data := filter_data,
          bias_data := bias_data,
          output_multiplier := output_multiplier, output_shift := output_shift,
          output_shape := output_shape,
          stride_width := params.stride_width, stride_height := params.stride_height,
          input_depth := MatchingDim input_shape 3 filter_shape 3,
          output_depth := MatchingDim filter_shape 0 output_shape 3,
          max_load := maxOutputChannelsPerLoad maxFilterWords
            (MatchingDim input_shape 3 filter_shape 3) }
        fuel 0
        (SetOutputOffsets params.output_offset params.quantized_activation_min
          params.quantized_activation_max
          (LoadInputOffset params.input_offset initAccelState))
        output_data from rfl]
  rw [heq]
  dsimp only at hchar
  rw [show (MatchingDim filter_shape 0 output_shape 3 : Nat) = output_shape.d3
    from hfd0] at hchar
  rw [RuntimeShape.Dims_one, RuntimeShape.Dims_two] at hchar
  congr 1
  apply list_eq_of_tget
  · rw [hflen, hbuf, referenceConv_length, RuntimeShape.Dims_one,
      RuntimeShape.Dims_two, RuntimeShape.Dims_three]
  · intro i hi
    rw [hflen, hbuf] at hi
    have hD0 : 0 < output_shape.d3 := by
      rcases Nat.eq_zero_or_pos output_shape.d3 with h0 | h0
      · rw [h0, Nat.mul_zero] at hi; omega
      · exact h0
    have hW0 : 0 < output_shape.d2 := by
      rcases Nat.eq_zero_or_pos output_shape.d2 with h0 | h0
      · rw [h0, Nat.mul_zero, Nat.zero_mul] at hi; omega
      · exact h0
    have hqb : i / output_shape.d3 < output_shape.d1 * output_shape.d2 :=
      (Nat.div_lt_iff_lt_mul hD0).mpr hi
    have hcb : i % output_shape.d3 < output_shape.d3 := Nat.mod_lt _ hD0
    have hieq : i / output_shape.d3 * output_shape.d3 + i % output_shape.d3 = i := by
      rw [Nat.mul_comm (i / output_shape.d3) output_shape.d3]
      exact Nat.div_add_mod i output_shape.d3
    have h2 := hchar (i / output_shape.d3) (i % output_shape.d3) hqb hcb
    rw [if_neg (by omega)] at h2
    rw [hieq] at h2
    rw [h2]
    have h3 := tget_referenceConv rescale params output_multiplier output_shift
      input_shape input_data filter_shape filter_data bias_data output_shape
      (i / output_shape.d3) (i % output_shape.d3) hqb hcb hW0
    rw [RuntimeShape.Dims_three, RuntimeShape.Dims_two] at h3
    rw [hieq] at h3
    rw [h3]

/-- Witness for C1 (amended) at a concrete eligible configuration: input
1x5x5x4, filter 4x4x4x4, stride 1, output 1x2x2x4, nonzero quantization
offsets and per-channel multipliers/shifts. -/
theorem convPerChannel4x4_matches_reference_witness :
    CanAccelerateConv4x4 exampleParamsOffset ⟨1, 5, 5, 4⟩ ⟨4, 4, 4, 4⟩ ⟨1, 2, 2, 4⟩
      (some [10, -3, 7, 100]) = true ∧
    RuntimeShape.d3 (⟨4, 4, 4, 4⟩ : RuntimeShape) =
      RuntimeShape.d3 (⟨1, 5, 5, 4⟩ : RuntimeShape) ∧
    RuntimeShape.d0 (⟨4, 4, 4, 4⟩ : RuntimeShape) =
      RuntimeShape.d3 (⟨1, 2, 2, 4⟩ : RuntimeShape) ∧
    0 < RuntimeShape.d3 (⟨1, 5, 5, 4⟩ : RuntimeShape) ∧
    16 * RuntimeShape.d3 (⟨1, 5, 5, 4⟩ : RuntimeShape) ≤ 2048 ∧
    RuntimeShape.d3 (⟨1, 2, 2, 4⟩ : RuntimeShape) % 4 = 0 ∧
    (List.replicate 16 (99 : Int)).length =
      RuntimeShape.d1 (⟨1, 2, 2, 4⟩ : RuntimeShape) *
        RuntimeShape.d2 (⟨1, 2, 2, 4⟩ : RuntimeShape) *
        RuntimeShape.d3 (⟨1, 2, 2, 4⟩ : RuntimeShape) ∧
    RuntimeShape.d3 (⟨1, 2, 2, 4⟩ : RuntimeShape) ≤ 8 ∧
    ConvPerChannel4x4 2048 exampleRescale 8 exampleParamsOffset [1, 2, 3, 1]
      [0, 1, 0, 2] ⟨1, 5, 5, 4⟩ exampleInput ⟨4, 4, 4, 4⟩ exampleFilter
      ⟨1, 1, 1, 4⟩ [10, -3, 7, 100] ⟨1, 2, 2, 4⟩ (List.replicate 16 99) =
    some (referenceConv exampleRescale exampleParamsOffset [1, 2, 3, 1] [0, 1, 0, 2]
      ⟨1, 5, 5, 4⟩ exampleInput ⟨4, 4, 4, 4⟩ exampleFilter [10, -3, 7, 100]
      ⟨1, 2, 2, 4⟩) :=
  ⟨by decide, by decide, by decide, by decide, by decide, by decide, by decide,
    by decide,
    convPerChannel4x4_matches_reference 2048 8 exampleRescale exampleParamsOffset
      [1, 2, 3, 1] [0, 1, 0, 2] ⟨1, 5, 5, 4⟩ exampleInput ⟨4, 4, 4, 4⟩ exampleFilter
      ⟨1, 1, 1, 4⟩ [10, -3, 7, 100] ⟨1, 2, 2, 4⟩ (List.replicate 16 99)
      (by decide) (by decide) (by decide) (by decide) (by decide) (by decide)
      (by decide) (by decide)⟩

/-- Counterexample to C1 as stated: an eligible configuration (depth 1, valid
padding, 4x4 filter, batch 1, non-null bias) with output depth 6 — not a
multiple of 4 — where the engine's output differs from the reference kernel's
output (the drain loop advances the output pointer by `output_depth / 4 = 1`
words per pixel, misplacing and overwriting output bytes). -/
theorem convPerChannel4x4_claim_counterexample :
    CanAccelerateConv4x4 exampleParams ⟨1, 4, 5, 1⟩ ⟨6, 4, 4, 1⟩ ⟨1, 1, 2, 6⟩
      (some [1, 2, 3, 4, 5, 6]) = true ∧
    ConvPerChannel4x4 2048 (fun a _ _ => a) 8 exampleParams (List.replicate 6 1)
        (List.replicate 6 0) ⟨1, 4, 5, 1⟩ (List.replicate 20 0) ⟨6, 4, 4, 1⟩
        (List.replicate 96 0) ⟨1, 1, 1, 6⟩ [1, 2, 3, 4, 5, 6] ⟨1, 1, 2, 6⟩
        (List.replicate 12 0) ≠
      some (referenceConv (fun a _ _ => a) exampleParams (List.replicate 6 1)
        (List.replicate 6 0) ⟨1, 4, 5, 1⟩ (List.replicate 20 0) ⟨6, 4, 4, 1⟩
        (List.replicate 96 0) [1, 2, 3, 4, 5, 6] ⟨1, 1, 2, 6⟩) := by
  constructor
  · decide
  · decide

/-- C5: evaluation of the engine at the claim's own example — output depth 6
with `max_output_channels_per_load` forced to 4 (`MAX_FILTER_WORDS = 16`,
depth 1).  The tiles are channels 0-3 and 4-5 as claimed, but the drain loop
pops `ceil(2/4) = 1` whole word for the 2-channel tile (not
`output_channels/4 = 0`) and advances the output pointer by
`output_depth / 4 = 1` words (4 bytes) per pixel while pixels are 6 bytes
apart, so the engine writes `[1,2,3,4,5,6,0,0,5,6,0,0]` where the reference
produces `[1,2,3,4,5,6,1,2,3,4,5,6]` — later pixels are misplaced and
clobbered. -/
theorem convPerChannel4x4_drain_misplacement :
    maxOutputChannelsPerLoad 16 1 = 4 ∧
    ConvPerChannel4x4 16 (fun a _ _ => a) 8 exampleParams (List.replicate 6 1)
        (List.replicate 6 0) ⟨1, 4, 5, 1⟩ (List.replicate 20 0) ⟨6, 4, 4, 1⟩
        (List.replicate 96 0) ⟨1, 1, 1, 6⟩ [1, 2, 3, 4, 5, 6] ⟨1, 1, 2, 6⟩
        (List.replicate 12 0) =
      some [1, 2, 3, 4, 5, 6, 0, 0, 5, 6, 0, 0] ∧
    referenceConv (fun a _ _ => a) exampleParams (List.replicate 6 1)
        (List.replicate 6 0) ⟨1, 4, 5, 1⟩ (List.replicate 20 0) ⟨6, 4, 4, 1⟩
        (List.replicate 96 0) [1, 2, 3, 4, 5, 6] ⟨1, 1, 2, 6⟩ =
      [1, 2, 3, 4, 5, 6, 1, 2, 3, 4, 5, 6] := by
  refine ⟨by decide, ?_, by decide⟩
  decide
